import Mathlib

/-!
# Verification of the RAPTOR journey-search backend

Shallow embedding of the query engine (`server.js`) and of the relevant
parts of the ingestion pipeline (`gtfs-ingest.js`) of the raptor-backend
repository, together with proofs and refutations of the frozen claims
about them.

Conventions of the embedding:
* JavaScript numbers holding times/seconds are modelled as `Int`
  (all schedule times are integers of seconds); `null`/`undefined`
  number fields are `Option Int`.
* JavaScript objects used as string-keyed dictionaries preserve insertion
  order for the non-numeric string keys used here (stop ids, trip ids),
  so they are modelled by insertion-ordered association lists (`OMap`).
* JavaScript `Set`s are modelled by duplicate-free lists in insertion
  order.
* `Array.prototype.sort` with a consistent comparator is (per the
  ECMAScript spec) a stable sort; it is modelled by a stable insertion
  sort `jsSort` over the boolean "less-or-equal" relation derived from
  the comparator.
* String manipulation is implemented over `List Char` so that every
  definition evaluates inside the kernel.
-/

/-! ## Generic helpers: ordered maps, sets, strings, stable sort -/

/-- Insertion-ordered association map, modelling a JS object used as a
dictionary with (non-numeric) string keys: updating an existing key keeps
its position, a new key is appended at the end. -/

abbrev OMap (κ : Type) (α : Type) : Type := List (κ × α)

def OMap.empty {κ α : Type} : OMap κ α := []

def OMap.oget {κ α : Type} [DecidableEq κ] (m : OMap κ α) (k : κ) : Option α :=
  match m with
  | [] => none
  | (k', v) :: rest => if k' = k then some v else OMap.oget rest k

def OMap.oset {κ α : Type} [DecidableEq κ] (m : OMap κ α) (k : κ) (v : α) : OMap κ α :=
  match m with
  | [] => [(k, v)]
  | (k', v') :: rest => if k' = k then (k', v) :: rest else (k', v') :: OMap.oset rest k v

/-- The values of the map in insertion order (JS `map.values()`). -/
def OMap.ovalues {κ α : Type} (m : OMap κ α) : List α := m.map (·.2)

def OMap.okeys {κ α : Type} (m : OMap κ α) : List κ := m.map (·.1)

/-- JS `Set.add`: append if not already present (insertion order kept). -/
def sadd (s : List String) (x : String) : List String :=
  if x ∈ s then s else s ++ [x]

/-- `new Set(xs)` enumerated in insertion order: first occurrences kept. -/
def sdedup (xs : List String) : List String := xs.foldl sadd []

/-- JS truthiness for an optional string: `undefined`, `null` and the
empty string are falsy; `jsOrS a b` models `a || b`. -/
def jsOrS (a : Option String) (b : String) : String :=
  match a with
  | some s => if s = "" then b else s
  | none => b

def splitOnChar (sep : Char) (cs : List Char) : List (List Char) :=
  match cs with
  | [] => [[]]
  | c :: rest =>
    let r := splitOnChar sep rest
    if c = sep then [] :: r
    else match r with
      | [] => [[c]]
      | g :: gs => (c :: g) :: gs

/-- JS `String.prototype.split(sep)` for a one-character separator. -/
def jsSplit (s : String) (sep : Char) : List String :=
  (splitOnChar sep s.toList).map String.mk

/-- JS `String.prototype.includes`. -/
def jsIncludes (s sub : String) : Bool := decide (sub.toList <:+: s.toList)

def jsTrim (s : String) : String :=
  String.mk ((s.toList.dropWhile Char.isWhitespace).reverse.dropWhile Char.isWhitespace
    |>.reverse)

def jsToUpper (s : String) : String := String.mk (s.toList.map Char.toUpper)

/-- Digit-string to number (used where JS relies on `parseInt`/`Number`
on a well-formed digit string; anything else yields `none`). -/
def parseDigits (cs : List Char) : Option Nat :=
  if cs ≠ [] ∧ cs.all Char.isDigit then
    some (cs.foldl (fun n c => n * 10 + (c.toNat - 48)) 0)
  else none

def digitChar (n : Nat) : Char :=
  match n with
  | 0 => '0' | 1 => '1' | 2 => '2' | 3 => '3' | 4 => '4'
  | 5 => '5' | 6 => '6' | 7 => '7' | 8 => '8' | 9 => '9'
  | _ => '?'

def natDigitsAux : Nat → Nat → List Char
  | 0, _ => []
  | fuel + 1, n => if n = 0 then [] else natDigitsAux fuel (n / 10) ++ [digitChar (n % 10)]

/-- Decimal rendering of a natural number (JS `String(n)`). -/
def natToStr (n : Nat) : String :=
  if n = 0 then "0" else String.mk (natDigitsAux (n + 1) n)

/-- JS `String(x).padStart(2, '0')`. -/
def pad2 (s : String) : String :=
  if s.toList.length < 2 then String.mk ('0' :: s.toList) else s

/-- Stable insertion sort over a boolean `le`, modelling
`Array.prototype.sort` with the comparator `(a, b) => key(a) - key(b)`
(`le a b` meaning "the comparator is ≤ 0 on (a, b)"): ECMAScript requires
the sort to be stable, and for a consistent comparator the result is the
unique stable `le`-sorted permutation. -/
def jsInsert {α : Type} (le : α → α → Bool) (x : α) : List α → List α
  | [] => [x]
  | y :: ys => if le x y ∧ ¬ le y x then x :: y :: ys else y :: jsInsert le x ys

def jsSort {α : Type} (le : α → α → Bool) : List α → List α
  | [] => []
  | x :: xs => jsInsert le x (jsSort le xs)

/-! ## Data model (server.js, engine artifacts) -/

/-- One entry of `transfer_index.json`: either a plain string (a normal
sibling link) or an object `{ id, interCity }` (inter-station link inside
one metropolitan city), cf. server.js lines 167–175. -/
inductive TEntryRaw : Type
  | str (id : String)
  | obj (id : String) (interCity : Bool)
deriving DecidableEq, Repr

/-- Normalised transfer entry (`transferEntries` lifts both raw shapes
into this form). -/
structure TransferEntry : Type where
  id : String
  interCity : Bool
deriving DecidableEq, Repr

/-- One stop-time row of a trip (`{ seq, stop_id, dep_time, arr_time }`,
seconds from midnight, `none` for a missing value). -/
structure StopTime : Type where
  seq : Int
  stop_id : String
  dep_time : Option Int
  arr_time : Option Int
deriving DecidableEq, Repr

/-- One trip of `route_trips.json`. -/
structure Trip : Type where
  trip_id : String
  service_id : String
  dep_time_first : Option Int
  train_type : Option String
  operator : String
  stop_times : List StopTime
deriving DecidableEq, Repr

/-- A stop record of `stops.json`; only the fields the embedded engine
code reads are kept (the unused float coordinates are omitted). -/
structure StopRec : Type where
  name : String
  operator : String
deriving DecidableEq, Repr

/-- A route record of `routes_info.json` (fields read by the engine). -/
structure RouteInfo : Type where
  short : String
  long : String
deriving DecidableEq, Repr

/-- One logical station of `stations.json` / `stopsIndex` (fields read by
the embedded engine code). `city`/`country` are optional in the raw file;
`none` models an absent field. -/
structure Station : Type where
  name : String
  city : Option String
  country : Option String
  stopIds : List String
deriving DecidableEq, Repr

/-- The read-only in-RAM state loaded by `initEngine` that the embedded
query-engine functions consult.  `jsnorm` models the JS normalisation
`s.toLowerCase().normalize('NFD').replace(/[̀-ͯ]/g, '')`
(lower-casing plus Unicode accent stripping), which relies on the JS
Unicode tables and is therefore kept as an abstract string function. -/
structure Env : Type where
  stops : OMap String StopRec
  routesInfo : OMap String RouteInfo
  routeTrips : OMap String (List Trip)
  calendarIndex : OMap String (List String)
  transferIndex : OMap String (List TEntryRaw)
  stopsIndex : List Station
  stopNameMap : OMap String String
  jsnorm : String → String

/-! ## server.js utilities -/

/-- server.js `extractOperator`: the regex `^([A-Z]+):` — the leading run
of capital letters when it is non-empty and followed by a colon,
otherwise the default `"SNCF"`. -/
def extractOperator (sid : String) : String :=
  let pre := sid.toList.takeWhile (fun c => 'A' ≤ c ∧ c ≤ 'Z')
  if pre ≠ [] ∧ (sid.toList.drop pre.length).take 1 = [':'] then String.mk pre
  else "SNCF"

/-- server.js `transferEntries`: look up a stop in the transfer index and
lift plain strings into `{ id, interCity: false }`. -/
def transferEntries (env : Env) (stopId : String) : List TransferEntry :=
  ((env.transferIndex.oget stopId).getD []).map fun e =>
    match e with
    | TEntryRaw.str id => ⟨id, false⟩
    | TEntryRaw.obj id interCity => ⟨id, interCity⟩

def MIN_TRANSFER_SAME : Int := 3 * 60

def MIN_TRANSFER_CROSS : Int := 10 * 60

def MIN_TRANSFER_CITY : Int := 45 * 60

/-- server.js `transferTime`. -/
def transferTime (fromId : String) (toEntry : TransferEntry) : Int :=
  if toEntry.interCity then MIN_TRANSFER_CITY
  else if extractOperator fromId = extractOperator toEntry.id then MIN_TRANSFER_SAME
  else MIN_TRANSFER_CROSS

/-- server.js `timeToSeconds` for a well-formed `"HH:MM"` string. -/
def timeToSeconds (t : String) : Int :=
  let parts := jsSplit t ':'
  let h := ((parts.get? 0).bind (fun s => parseDigits s.toList)).getD 0
  let m := ((parts.get? 1).bind (fun s => parseDigits s.toList)).getD 0
  (h : Int) * 3600 + (m : Int) * 60

/-- JS `Math.floor(a / b)` on integers: floor division. -/
def jsFloorDiv (a b : Int) : Int := Int.fdiv a b

/-- JS `a % b` on integers: truncating remainder. -/
def jsMod (a b : Int) : Int := Int.tmod a b

def intToStr (i : Int) : String :=
  if i < 0 then String.mk ('-' :: (natToStr i.natAbs).toList) else natToStr i.toNat

/-- server.js `secondsToHHMM` (`none` models `null`; finite values only,
the engine's times are always finite integers). -/
def secondsToHHMM (s : Option Int) : String :=
  match s with
  | none => "--:--"
  | some sec =>
    let totalMin := jsFloorDiv sec 60
    pad2 (intToStr (jsMod (jsFloorDiv totalMin 60) 24)) ++ ":" ++ pad2 (intToStr (jsMod totalMin 60))

/-- JS `Math.round((arr - dep) / 60)` on an integer difference `d`:
round-half-towards-plus-infinity of `d / 60`. -/
def jsRound60 (d : Int) : Int := Int.fdiv (d * 2 + 60) 120

/-- Month (1–12) of a well-formed ISO `YYYY-MM-DD` date string; models
`new Date(dateISO + 'T12:00:00Z').getUTCMonth() + 1`.  On malformed
input the JS expression yields `NaN` (which fails the `month >= 4`
comparison) and this function yields `0` (which also fails `4 ≤ month`),
so the two agree on the branch taken in `tiAdjust`. -/
def isoMonth (dateISO : String) : Nat :=
  (parseDigits ((dateISO.toList.drop 5).take 2)).getD 0

/-- server.js `tiAdjust`: shift a raw Trenitalia time into the
France-local timeline.  `none` for `dateISO` models an absent or empty
date string (both falsy in JS). -/
def tiAdjust (seconds : Option Int) (dateISO : Option String) : Option Int :=
  match seconds with
  | none => none
  | some s =>
    match dateISO with
    | some d => some (s + (if 4 ≤ isoMonth d ∧ isoMonth d ≤ 9 then 7200 else 3600))
    | none => some (s + 3600)

/-! ## Train-type detection (server.js) -/

/-- Index of the first occurrence of `needle` in `hay` (leftmost regex
match position). -/
def firstSubIdx (needle : List Char) : List Char → Option Nat
  | [] => if needle = [] then some 0 else none
  | c :: rest =>
    if needle.isPrefixOf (c :: rest) then some 0
    else (firstSubIdx needle rest).map (· + 1)

/-- `lit` followed by exactly `n` digits at the start of `cs` (regex
`^LIT\d{n}`, unanchored at the right). -/
def headLitDigits (lit : List Char) (n : Nat) (cs : List Char) : Bool :=
  lit.isPrefixOf cs ∧ ((cs.drop lit.length).take n).length = n
    ∧ ((cs.drop lit.length).take n).all Char.isDigit

/-- The platform token captured by `/StopPoint:OCE(.+)-\d{8}$/` on a stop
id, trimmed — empty when the pattern does not match (JS `''` default). -/
def quaiOf (sid : String) : String :=
  let cs := sid.toList
  let n := cs.length
  match firstSubIdx "StopPoint:OCE".toList cs with
  | none => ""
  | some i =>
    if i + 23 ≤ n ∧ (cs.drop (n - 9)).take 1 = ['-'] ∧ (cs.drop (n - 8)).all Char.isDigit then
      jsTrim (String.mk ((cs.drop (i + 13)).take (n - 9 - (i + 13))))
    else ""

/-- server.js `detectTrainTypeTI`. -/
def detectTrainTypeTI (env : Env) (tripId : Option String) (routeId : Option String) : String :=
  let route := (routeId.bind env.routesInfo.oget).getD ⟨"", ""⟩
  let combined := jsToUpper (route.long ++ " " ++ route.short)
  if jsIncludes combined "FRECCIAROSSA" then "FRECCIAROSSA"
  else if jsIncludes combined "EURONIGHT" ∨ jsIncludes combined "NOTTE" then "EURONIGHT"
  else if jsIncludes combined "INTERCITY" ∨ jsIncludes combined "INTERCITES" then "IC_IT"
  else if jsIncludes combined "REGIONALE" then "REGIONALE_IT"
  else
    let cs0 := (tripId.getD "").toList
    let cs1 := if (cs0.take 3).map Char.toUpper = "TI:".toList then cs0.drop 3 else cs0
    let raw := cs1.map Char.toUpper
    if jsIncludes (String.mk raw) "FRECCIAROSSA" ∨ headLitDigits "FR".toList 1 raw
        ∨ headLitDigits "9".toList 3 raw then "FRECCIAROSSA"
    else if jsIncludes (String.mk raw) "EURONIGHT" ∨ headLitDigits "EN".toList 1 raw
        ∨ headLitDigits "ICN".toList 1 raw then "EURONIGHT"
    else if headLitDigits "IC".toList 1 raw then "IC_IT"
    else if headLitDigits "R".toList 1 raw ∨ headLitDigits "RV".toList 1 raw then "REGIONALE_IT"
    else "FRECCIAROSSA"

/-- server.js `tiRouteName`. -/
def tiRouteName (trainType : String) : String :=
  if trainType = "FRECCIAROSSA" then "Frecciarossa"
  else if trainType = "EURONIGHT" then "Euronight"
  else if trainType = "IC_IT" then "Intercity"
  else if trainType = "REGIONALE_IT" then "Regionale"
  else "Frecciarossa"

/-- server.js `detectTrainType`: a stored (truthy) train type wins,
otherwise operator-specific rules on the platform token and the trip id. -/
def detectTrainType (env : Env) (fromStopId : String) (tripId : Option String)
    (stored : Option String) (op : Option String) (routeId : Option String) : String :=
  match (match stored with | some s => if s = "" then none else some s | none => none) with
  | some s => s
  | none =>
    let operator := jsOrS op (extractOperator fromStopId)
    if operator = "TI" then detectTrainTypeTI env tripId routeId
    else
      let tid := jsToUpper (tripId.getD "")
      let quai := quaiOf fromStopId
      if quai = "OUIGO" ∨ jsIncludes tid "OUIGO" then
        let cs := (tripId.getD "").toList
        let four := (cs.drop 5).take 4
        if ("OCESN".toList.isPrefixOf cs ∧ four.length = 4 ∧ four.all Char.isDigit
            ∧ (four.take 1 = ['4'] ∨ four.take 1 = ['7'])) then
          if (parseDigits four).getD 0 / 1000 = 7 then "OUIGO" else "OUIGO_CLASSIQUE"
        else "OUIGO"
      else if quai = "TGV INOUI" ∨ jsIncludes tid "INOUI" then "INOUI"
      else if quai = "INTERCITES de nuit" then "IC_NUIT"
      else if quai = "INTERCITES" ∨ jsIncludes tid "INTERCITES" then "IC"
      else if quai = "Lyria" ∨ jsIncludes tid "LYRIA" then "LYRIA"
      else if quai = "ICE" then "ICE"
      else if quai = "TramTrain" then "TRAMTRAIN"
      else if quai = "Car TER" then "CAR"
      else if quai = "Train TER" then "TER"
      else if quai = "Navette" then "NAVETTE"
      else "TRAIN"

/-! ## RAPTOR (server.js) -/

/-- One entry of the `stopToTrips` index: `{ routeId, trip, idx }`. -/
structure STEntry : Type where
  routeId : String
  trip : Trip
  idx : Nat
deriving DecidableEq, Repr

/-- server.js `buildStopToTrips`. -/
def buildStopToTrips (tripsData : OMap String (List Trip)) : OMap String (List STEntry) :=
  tripsData.foldl
    (fun index rt =>
      rt.2.foldl
        (fun index trip =>
          trip.stop_times.enum.foldl
            (fun index p =>
              index.oset p.2.stop_id
                (((index.oget p.2.stop_id).getD []) ++ [⟨rt.1, trip, p.1⟩]))
            index)
        index)
      OMap.empty

/-- Predecessor-map entry (`parent[stop]`); ride entries carry
`is_transfer = false` (the JS field is absent, hence falsy), transfer
entries carry no trip/route/type fields (absent, modelled `none`). -/
structure RParent : Type where
  from_stop : String
  trip_id : Option String
  route_id : Option String
  dep_time : Int
  arr_time : Int
  train_type : Option String
  operator : Option String
  is_transfer : Bool
deriving DecidableEq, Repr

/-- `a < (o ?? Infinity)`. -/
def ltOpt (a : Int) (o : Option Int) : Bool :=
  match o with
  | none => true
  | some v => a < v

/-- The mutable triple threaded through `scanTrip`. -/
structure ScanSt : Type where
  tauBest : OMap String Int
  tauCur : OMap String Int
  parent : OMap String RParent

/-- Per-trip context of a scan. -/
structure ScanCtx : Type where
  isTI : Bool
  dateISO : Option String
  tripId : String
  routeId : String
  trainTp : Option String
  op : String

/-- The boarding-time read of `scanTrip`:
`st.dep_time ?? st.arr_time`, shifted through `tiAdjust` for a TI trip. -/
def readDep (isTI : Bool) (dateISO : Option String) (row : StopTime) : Option Int :=
  let rawDep := match row.dep_time with | some d => some d | none => row.arr_time
  if isTI ∧ rawDep ≠ none then tiAdjust rawDep dateISO else rawDep

/-- The arrival-time read of `scanTrip`:
`st.arr_time ?? st.dep_time`, shifted through `tiAdjust` for a TI trip. -/
def readArr (isTI : Bool) (dateISO : Option String) (row : StopTime) : Option Int :=
  let rawArr := match row.arr_time with | some a => some a | none => row.dep_time
  if isTI ∧ rawArr ≠ none then tiAdjust rawArr dateISO else rawArr

/-- The loop of server.js `scanTrip` over the stop-times from the entry
index on: board at the first stop whose best arrival allows it, then
relax every later stop.  TI times are adjusted through `tiAdjust` at read
time. -/
def scanGo (c : ScanCtx) : List StopTime → Option (String × Int) → ScanSt → ScanSt
  | [], _, st => st
  | row :: rest, none, st =>
    let sid := row.stop_id
    (match st.tauBest.oget sid with
     | none => scanGo c rest none st
     | some tau =>
       match readDep c.isTI c.dateISO row with
       | some d => if d ≥ tau then scanGo c rest (some (sid, d)) st else scanGo c rest none st
       | none => scanGo c rest none st)
  | row :: rest, some b, st =>
    let sid := row.stop_id
    (match readArr c.isTI c.dateISO row with
     | none => scanGo c rest (some b) st
     | some a =>
       if ltOpt a (st.tauBest.oget sid) then
         scanGo c rest (some b)
           ⟨st.tauBest.oset sid a, st.tauCur.oset sid a,
            st.parent.oset sid
              ⟨b.1, some c.tripId, some c.routeId, b.2, a,
               (match c.trainTp with | some s => if s = "" then none else some s | none => none),
               (if c.op = "" then none else some c.op), false⟩⟩
       else scanGo c rest (some b) st)

/-- server.js `scanTrip`. -/
def scanTrip (trip : Trip) (fromIdx : Nat) (routeId : String) (dateISO : Option String)
    (st : ScanSt) : ScanSt :=
  scanGo ⟨trip.operator = "TI", dateISO, trip.trip_id, routeId, trip.train_type, trip.operator⟩
    (trip.stop_times.drop fromIdx) none st

/-! ## Journey reconstruction (server.js) -/

structure Leg : Type where
  from_id : String
  to_id : String
  from_name : String
  to_name : String
  dep_time : Int
  arr_time : Int
  dep_str : String
  arr_str : String
  trip_id : Option String
  route_id : Option String
  route_name : String
  operator : String
  train_type : String
  duration : Int
deriving DecidableEq, Repr

structure Journey : Type where
  dep_time : Int
  arr_time : Int
  dep_str : String
  arr_str : String
  duration : Int
  transfers : Nat
  train_types : List String
  legs : List Leg
deriving DecidableEq, Repr

/-- server.js `cleanStopName`:
`stopNameMap.get(stopId) || stops[stopId]?.name || stopId`. -/
def cleanStopName (env : Env) (stopId : String) : String :=
  jsOrS (env.stopNameMap.oget stopId) (jsOrS ((env.stops.oget stopId).map (·.name)) stopId)

/-- server.js `resolveStopName`: name of the first grouped station of
`stopsIndex` containing the stop, else `cleanStopName`. -/
def resolveStopName (env : Env) (stopId : String) : String :=
  match env.stopsIndex.find? (fun st => decide (stopId ∈ st.stopIds)) with
  | some st => st.name
  | none => cleanStopName env stopId

/-- server.js `cityKeyOfStop`: the `(normalised city):(country)` key of
the first station of `stopsIndex` containing the stop, else the stop id
itself. -/
def cityKeyOfStop (env : Env) (stopId : String) : String :=
  match env.stopsIndex.find? (fun s => decide (stopId ∈ s.stopIds)) with
  | some s => env.jsnorm (jsOrS s.city s.name) ++ ":" ++ jsOrS s.country "FR"
  | none => stopId

/-- Build one ride leg from a predecessor entry (the leg-construction
block of `reconstructJourney`).  `p.route_id` is always present on ride
entries, so the `getD ""` default is never taken. -/
def mkLeg (env : Env) (p : RParent) (current : String) : Leg :=
  let op := jsOrS p.operator (extractOperator p.from_stop)
  let isTI := op = "TI"
  let route := (p.route_id.bind env.routesInfo.oget).getD ⟨"", ""⟩
  let trainType := detectTrainType env p.from_stop p.trip_id p.train_type (some op) p.route_id
  let routeName :=
    if isTI then tiRouteName trainType
    else jsOrS (some route.short) (jsOrS (some route.long) (p.route_id.getD ""))
  { from_id := p.from_stop
    to_id := current
    from_name := resolveStopName env p.from_stop
    to_name := resolveStopName env current
    dep_time := p.dep_time
    arr_time := p.arr_time
    dep_str := secondsToHHMM (some p.dep_time)
    arr_str := secondsToHHMM (some p.arr_time)
    trip_id := p.trip_id
    route_id := p.route_id
    route_name := routeName
    operator := op
    train_type := trainType
    duration := jsRound60 (p.arr_time - p.dep_time) }

/-- Journey-level aggregates from a non-empty leg list (tail of
`reconstructJourney`). -/
def mkJourney (l0 : Leg) (ls : List Leg) : Journey :=
  let legs := l0 :: ls
  let dep := l0.dep_time
  let arr := ((legs.getLast?).getD l0).arr_time
  { dep_time := dep
    arr_time := arr
    dep_str := secondsToHHMM (some dep)
    arr_str := secondsToHHMM (some arr)
    duration := jsRound60 (arr - dep)
    transfers := legs.length - 1
    train_types := sdedup ((legs.map (·.train_type)).filter (· ≠ ""))
    legs := legs }

/-- The back-walk of server.js `reconstructJourney`: follow `parent` from
the destination to any origin, collapsing transfer edges and prepending
one leg per ride; abandon on a revisited stop or a missing predecessor.
`fuel` only bounds the recursion; each iteration adds a fresh stop to
`visited` and steps to a stop that must be a key of `parent`, so
`parent.length + 1` steps always suffice. -/
def reconGo (env : Env) (parent : OMap String RParent) (originSet : List String) :
    Nat → String → List String → List Leg → Option Journey
  | fuel, current, visited, legs =>
    if current ∈ originSet then
      match legs with
      | [] => none
      | l0 :: ls => some (mkJourney l0 ls)
    else
      match fuel with
      | 0 => none
      | fuel + 1 =>
        if current ∈ visited then none
        else
          match parent.oget current with
          | none => none
          | some p =>
            if p.is_transfer then
              reconGo env parent originSet fuel p.from_stop (visited ++ [current]) legs
            else
              reconGo env parent originSet fuel p.from_stop (visited ++ [current])
                (mkLeg env p current :: legs)

/-- server.js `reconstructJourney` (the `dateISO` argument of the JS
function is unused by its body and therefore not taken here). -/
def reconstructJourney (env : Env) (parent : OMap String RParent) (originSet : List String)
    (destId : String) : Option Journey :=
  reconGo env parent originSet (parent.length + 1) destId [] []

/-! ## raptorCore (server.js) -/

/-- `results.some(r => key(r) === key(j))` key: the trip-id sequence of a
journey joined with `'|'` (JS `join` renders a null entry as `''`). -/
def tripKey (j : Journey) : String :=
  String.intercalate "|" (j.legs.map (fun l => l.trip_id.getD ""))

/-- State produced by the initialization block of `raptorCore`. -/
structure RaptorInit : Type where
  tauBest : OMap String Int
  parent : OMap String RParent
  originSet : List String
  marked : List String

/-- Relaxation of one transfer neighbour of the origin `oid` in the
initialization loop of `raptorCore`: seed the sister at
`startTime + transferTime` when that improves it, and add the sister to
the origin set unless the edge is inter-city. -/
def initEntryStep (env : Env) (startTime : Int) (oid : String)
    (st : RaptorInit) (entry : TransferEntry) : RaptorInit :=
  let sister := entry.id
  let t := startTime + transferTime oid entry
  let st :=
    if ltOpt t (st.tauBest.oget sister) then
      { st with
        tauBest := st.tauBest.oset sister t
        marked := sadd st.marked sister
        parent := st.parent.oset sister
          ⟨oid, none, none, startTime, t, none, none, true⟩ }
    else st
  if ¬ entry.interCity then { st with originSet := sadd st.originSet sister } else st

/-- Processing of one origin in the initialization loop of `raptorCore`:
seed it at `startTime`, add it to the origin set, then relax each of its
transfer neighbours. -/
def initOriginStep (env : Env) (startTime : Int) (st : RaptorInit) (oid : String) :
    RaptorInit :=
  let st :=
    if (match st.tauBest.oget oid with | none => true | some v => startTime < v) then
      { st with tauBest := st.tauBest.oset oid startTime, marked := sadd st.marked oid }
    else st
  let st := { st with originSet := sadd st.originSet oid }
  (transferEntries env oid).foldl (initEntryStep env startTime oid) st

/-- The initialization loop of `raptorCore`: seed every origin at
`startTime`, seed every transfer neighbour at `startTime + transferTime`,
and collect the origin set — inter-city neighbours are reachable but not
added to the origin set. -/
def raptorInit (env : Env) (originIds : List String) (startTime : Int) : RaptorInit :=
  originIds.foldl (initOriginStep env startTime) ⟨OMap.empty, OMap.empty, [], []⟩

/-- Per-round mutable state of `raptorCore`. -/
structure RoundSt : Type where
  tauBest : OMap String Int
  parent : OMap String RParent
  marked : List String
  results : List Journey
  collected : List String

/-- One round of `raptorCore`: scan the trips of every marked stop, relax
the transfer neighbours of every stop improved this round (over the
snapshot of `tau_cur` taken by `Object.entries`), then collect improved
destinations (or, without destinations, every newly reached stop). -/
def raptorRound (env : Env) (destSet : Option (List String))
    (stt : OMap String (List STEntry)) (dateISO : Option String)
    (originSet : List String) (st : RoundSt) : RoundSt :=
  let tauPrev := st.tauBest
  let sSt : ScanSt :=
    st.marked.foldl
      (fun s stop =>
        ((stt.oget stop).getD []).foldl
          (fun s e => scanTrip e.trip e.idx e.routeId dateISO s) s)
      ⟨st.tauBest, OMap.empty, st.parent⟩
  let snapshot := sSt.tauCur
  let relaxed :=
    snapshot.foldl
      (fun (q : ScanSt × List String) p =>
        let nm := if ltOpt p.2 (tauPrev.oget p.1) then sadd q.2 p.1 else q.2
        (transferEntries env p.1).foldl
          (fun (q : ScanSt × List String) entry =>
            let sister := entry.id
            let t := p.2 + transferTime p.1 entry
            if ltOpt t (q.1.tauBest.oget sister) then
              (⟨q.1.tauBest.oset sister t, q.1.tauCur.oset sister t,
                q.1.parent.oset sister ⟨p.1, none, none, p.2, t, none, none, true⟩⟩,
               sadd q.2 sister)
            else q)
          (q.1, nm))
      (sSt, ([] : List String))
  let s' := relaxed.1
  let marked' := relaxed.2
  match destSet with
  | some dests =>
    let results' :=
      dests.foldl
        (fun res did =>
          match s'.tauCur.oget did with
          | some v =>
            if ltOpt v (tauPrev.oget did) then
              match reconstructJourney env s'.parent originSet did with
              | some j =>
                if res.any (fun r => tripKey r = tripKey j) then res else res ++ [j]
              | none => res
            else res
          | none => res)
        st.results
    ⟨s'.tauBest, s'.parent, marked', results', st.collected⟩
  | none =>
    let acc :=
      s'.tauCur.foldl
        (fun (a : List Journey × List String) p =>
          if p.1 ∈ originSet ∨ p.1 ∈ a.2 then a
          else if ltOpt p.2 (tauPrev.oget p.1) then
            match reconstructJourney env s'.parent originSet p.1 with
            | some j => (a.1 ++ [j], a.2 ++ [p.1])
            | none => a
          else a)
        (st.results, st.collected)
    ⟨s'.tauBest, s'.parent, marked', acc.1, acc.2⟩

def MAX_ROUNDS : Nat := 5

/-- The round loop of `raptorCore` (`for round = 1..MAX_ROUNDS`, breaking
when no stop was marked). -/
def roundsGo (env : Env) (destSet : Option (List String))
    (stt : OMap String (List STEntry)) (dateISO : Option String)
    (originSet : List String) : Nat → RoundSt → RoundSt
  | 0, st => st
  | n + 1, st =>
    let st' := raptorRound env destSet stt dateISO originSet st
    if st'.marked = [] then st' else roundsGo env destSet stt dateISO originSet n st'

/-- server.js `raptorCore`. -/
def raptorCore (env : Env) (originIds : List String) (destIds : Option (List String))
    (startTime : Int) (stt : OMap String (List STEntry)) (dateISO : Option String) :
    List Journey :=
  let ini := raptorInit env originIds startTime
  let destSet := destIds.map sdedup
  (roundsGo env destSet stt dateISO ini.originSet MAX_ROUNDS
    ⟨ini.tauBest, ini.parent, ini.marked, [], []⟩).results

/-! ## searchJourneys (server.js) -/

/-- The comparator `a.transfers - b.transfers || a.duration - b.duration
|| a.dep_time - b.dep_time` as a boolean "≤" relation. -/
def cmpJourney (a b : Journey) : Bool :=
  if a.transfers ≠ b.transfers then a.transfers ≤ b.transfers
  else if a.duration ≠ b.duration then a.duration ≤ b.duration
  else a.dep_time ≤ b.dep_time

/-- The deduplication key of a journey: its departure time paired with
the city key of its last leg's arrival stop.  The JS map key is the
string `j.dep_time + ':' + cityKey`; since the rendered departure time
contains no `':'`, that string determines and is determined by this
pair. -/
def jKey (env : Env) (j : Journey) : Int × String :=
  (j.dep_time, cityKeyOfStop env (match j.legs.getLast? with | some l => l.to_id | none => ""))

/-- One step of the city-arrival deduplication map of `searchJourneys`:
keep the incumbent unless the incoming journey with the same key is
strictly faster. -/
def dedupeStep (env : Env) (m : OMap (Int × String) Journey) (j : Journey) :
    OMap (Int × String) Journey :=
  match m.oget (jKey env j) with
  | some existing => if j.duration < existing.duration then m.oset (jKey env j) j else m
  | none => m.oset (jKey env j) j

/-- The city-arrival deduplication block of `searchJourneys`: one kept
journey per `(departure time, arrival city)` key, replaced whenever a
strictly faster journey with the same key comes along. -/
def dedupeByArrCity (env : Env) (results : List Journey) : List Journey :=
  (results.foldl (dedupeStep env) OMap.empty).ovalues

/-- One step of the per-iteration batch filtering of `searchJourneys`
over the accumulator `(results, seen, maxDepThis)`. -/
def fnjStep (startTime : Int) (allowedTypes : Option (List String))
    (acc : List Journey × List String × Int) (j : Journey) :
    List Journey × List String × Int :=
  if j.dep_time < startTime then acc
  else if (match allowedTypes with
           | some allowed => ! j.train_types.any (fun tt => decide (tt ∈ allowed))
           | none => false) then acc
  else
    let key := tripKey j
    if key ∈ acc.2.1 then acc
    else (acc.1 ++ [j], acc.2.1 ++ [key],
          if j.dep_time > acc.2.2 then j.dep_time else acc.2.2)

/-- The per-iteration filtering of a `raptorCore` batch inside
`searchJourneys`: drop journeys departing before the original start time,
drop journeys with no train type in the allow-set, deduplicate by
trip-id key, and track the maximal departure time of the journeys newly
added (`-1` when none). -/
def filterNewJourneys (startTime : Int) (allowedTypes : Option (List String))
    (batch : List Journey) (results : List Journey) (seen : List String) :
    List Journey × List String × Int :=
  batch.foldl (fnjStep startTime allowedTypes) (results, seen, -1)

/-- The enumeration loop of `searchJourneys`, as an explicit state
machine over `(t, noNewCount, results, seen)`; it returns the final
`(results, t, noNewCount)`.  The `fuel` argument only bounds the
recursion: the loop performs at most `limit` productive iterations
(each one grows `results`, which the guard bounds by `limit`) and at
most 29 empty iterations (each one advances `t` by 1800 s towards
`maxT = startTime + 14 h`), so the fuel passed by `searchJourneys`
is never exhausted. -/
def searchLoop (env : Env) (originIds destIds : List String) (startTime : Int)
    (stt : OMap String (List STEntry)) (limit : Nat) (dateISO : Option String)
    (allowedTypes : Option (List String)) (maxT : Int) :
    Nat → Int → Nat → List Journey → List String → List Journey × Int × Nat
  | 0, t, noNew, results, _ => (results, t, noNew)
  | fuel + 1, t, noNew, results, seen =>
    if results.length < limit ∧ t ≤ maxT then
      let batch := raptorCore env originIds (some destIds) t stt dateISO
      let acc := filterNewJourneys startTime allowedTypes batch results seen
      if acc.2.2 ≥ 0 then
        searchLoop env originIds destIds startTime stt limit dateISO allowedTypes maxT
          fuel (acc.2.2 + 1) 0 acc.1 acc.2.1
      else if noNew + 1 ≥ 4 ∧ 0 < acc.1.length then (acc.1, t + 1800, noNew + 1)
      else
        searchLoop env originIds destIds startTime stt limit dateISO allowedTypes maxT
          fuel (t + 1800) (noNew + 1) acc.1 acc.2.1
    else (results, t, noNew)

/-- server.js `searchJourneys`: enumerate batches at increasing start
times, sort by `(transfers, duration, dep_time)`, deduplicate by arrival
city, sort again and truncate. -/
def searchJourneys (env : Env) (originIds destIds : List String) (startTime : Int)
    (stt : OMap String (List STEntry)) (limit : Nat) (dateISO : Option String)
    (allowedTypes : Option (List String)) : List Journey :=
  let maxT := startTime + 14 * 3600
  let fin := searchLoop env originIds destIds startTime stt limit dateISO allowedTypes maxT
    (limit + 40) startTime 0 [] []
  let sorted := jsSort cmpJourney fin.1
  (jsSort cmpJourney (dedupeByArrCity env sorted)).take limit

/-! ## /api/search handler and stop-id resolution (server.js) -/

/-- The UIC captured by `/StopArea:OCE(\d{8})$/`. -/
def areaUic (id : String) : Option String :=
  let cs := id.toList
  let n := cs.length
  if 20 ≤ n ∧ (cs.drop (n - 20)).take 12 = "StopArea:OCE".toList
      ∧ (cs.drop (n - 8)).all Char.isDigit then
    some (String.mk (cs.drop (n - 8)))
  else none

/-- server.js `resolveStopIds`. -/
def resolveStopIds (env : Env) (ids : List String) (mode : String) : List String :=
  ids.foldl
    (fun out id =>
      let out :=
        match areaUic id with
        | some uic =>
          env.stops.foldl
            (fun out sp =>
              if decide (('-' :: uic.toList) <:+ sp.1.toList) then sadd out sp.1 else out)
            out
        | none => out
      (transferEntries env id).foldl
        (fun out entry =>
          let sister := entry.id
          if mode = "dest" then
            if sister ∈ ids then out
            else if entry.interCity then out
            else if extractOperator id ≠ extractOperator sister then out
            else sadd out sister
          else sadd out sister)
        out)
    (sdedup ids)

/-- server.js `getActiveServices`. -/
def getActiveServices (env : Env) (dateISO : String) : Option (List String) :=
  env.calendarIndex.oget dateISO

/-- server.js `getFilteredData` (without the pure memoization of
`dateCache`, which does not change the value computed): the global
stop→trips index, or its restriction to the services active on the
date. -/
def getFilteredData (env : Env) (dateISO : Option String) : OMap String (List STEntry) :=
  match dateISO with
  | none => buildStopToTrips env.routeTrips
  | some d =>
    match getActiveServices env d with
    | none => buildStopToTrips env.routeTrips
    | some active =>
      let filteredTrips :=
        env.routeTrips.foldl
          (fun acc rt =>
            let valid := rt.2.filter (fun t => decide (t.service_id ∈ active))
            if valid ≠ [] then acc ++ [(rt.1, valid)] else acc)
          ([] : OMap String (List Trip))
      buildStopToTrips filteredTrips

/-- The query parameters of `/api/search` read by the embedded part of
the handler (`from`/`to` raw, the rest already parsed as the JS handler
parses them; `none` models an absent or empty parameter). -/
structure SearchQuery : Type where
  qfrom : String
  qto : String
  time : Option String
  date : Option String
  offset : Int
  after_dep : Int
  limit : Option Nat
  train_types : Option String

/-- The `/api/search` handler of server.js (HTTP status and journey
list of the JSON response; the tariff-profile echo and timing metadata
are omitted). -/
def apiSearch (env : Env) (q : SearchQuery) : Int × List Journey :=
  let fromIds := (jsSplit q.qfrom ',').filter (· ≠ "")
  let toIds := (jsSplit q.qto ',').filter (· ≠ "")
  if fromIds = [] ∨ toIds = [] then (400, [])
  else
    let timeStr := jsOrS q.time "08:00"
    let startSec := max (timeToSeconds timeStr + q.offset) q.after_dep
    let limit := min (q.limit.getD 8) 32
    let allowedTypes := q.train_types.map (fun s => ((jsSplit s ',').map jsTrim).filter (· ≠ ""))
    let stt := getFilteredData env q.date
    let uniqueFrom := resolveStopIds env (sdedup fromIds) "origin"
    let uniqueTo := resolveStopIds env (sdedup toIds) "dest"
    (200, searchJourneys env uniqueFrom uniqueTo startSec stt limit q.date allowedTypes)

/-! ## Ingestion: circular-trip repair (gtfs-ingest.js, ingestOperator) -/

/-- Sort key `a.seq - b.seq`. -/
def seqLe (a b : StopTime) : Bool := a.seq ≤ b.seq

/-- The time key `s.dep_time ?? s.arr_time ?? 0` used by the final
chronological sorts of the repair. -/
def timeKeyDep (s : StopTime) : Int :=
  match s.dep_time with
  | some d => d
  | none => match s.arr_time with | some a => a | none => 0

def timeLe (a b : StopTime) : Bool := timeKeyDep a ≤ timeKeyDep b

/-- `stops[i-1].dep_time ?? stops[i-1].arr_time ?? -1`. -/
def prevKeyOf (s : StopTime) : Int :=
  match s.dep_time with
  | some d => d
  | none => match s.arr_time with | some a => a | none => -1

/-- `stops[i].arr_time ?? stops[i].dep_time ?? prevTime + 1`. -/
def currKeyOf (s : StopTime) (prevTime : Int) : Int :=
  match s.arr_time with
  | some a => a
  | none => match s.dep_time with | some d => d | none => prevTime + 1

/-- The segment-splitting loop: cut before every stop whose time jumps
backward by more than 600 s relative to its predecessor. -/
def splitSegsGo (prev : StopTime) (cur : List StopTime) :
    List StopTime → List (List StopTime)
  | [] => [cur]
  | s :: rest =>
    let prevTime := prevKeyOf prev
    let currTime := currKeyOf s prevTime
    if prevTime ≥ 0 ∧ currTime < prevTime - 600 then
      cur :: splitSegsGo s [s] rest
    else
      splitSegsGo s (cur ++ [s]) rest

def splitSegments : List StopTime → List (List StopTime)
  | [] => [[]]
  | s :: rest => splitSegsGo s [s] rest

/-- Sort key of a segment: the time of its first stop
(`dep_time ?? arr_time ?? 0`). -/
def segFirstLe (a b : List StopTime) : Bool :=
  (match a.head? with | some s => timeKeyDep s | none => 0)
    ≤ (match b.head? with | some s => timeKeyDep s | none => 0)

/-- Re-concatenate time-sorted segments whose boundaries are consistent
(next segment starts no more than 600 s before the previous one ended),
otherwise start a new group. -/
def mergeGo (groups : List (List StopTime)) :
    List (List StopTime) → List (List StopTime)
  | [] => groups
  | seg :: rest =>
    let lastG := (groups.getLast?).getD []
    let lastTime : Int :=
      match lastG.getLast? with
      | some s =>
        (match s.arr_time with
         | some a => a
         | none => match s.dep_time with | some d => d | none => -1)
      | none => -1
    let firstTime : Int :=
      match seg.head? with
      | some s =>
        (match s.dep_time with
         | some d => d
         | none => match s.arr_time with | some a => a | none => lastTime + 1)
      | none => lastTime + 1
    if firstTime ≥ lastTime - 600 then
      mergeGo (groups.dropLast ++ [lastG ++ seg]) rest
    else
      mergeGo (groups ++ [seg]) rest

/-- The circular-trip repair applied to each trip's stop-time list by
`ingestOperator` (gtfs-ingest.js lines 354–394): sort by sequence, split
at backward jumps of more than 10 minutes, re-merge compatible segments,
keep the longest group, and sort the surviving list chronologically. -/
def repairStops (stops : List StopTime) : List StopTime :=
  let sortedSeq := jsSort seqLe stops
  let segments := splitSegments sortedSeq
  if segments.length > 1 then
    let segSorted := jsSort segFirstLe segments
    let merged := mergeGo [(segSorted.head?).getD []] (segSorted.drop 1)
    let byLen := jsSort (fun a b : List StopTime => b.length ≤ a.length) merged
    jsSort timeLe ((byLen.head?).getD [])
  else
    jsSort timeLe sortedSeq

/-! ## Ingestion: transfer index (gtfs-ingest.js, buildTransferIndex) -/

/-- `transferIndex[x]` with the `[]` default used by all membership
tests and pushes. -/
def tiGet (m : OMap String (List String)) (x : String) : List String :=
  (m.oget x).getD []

/-- `if (!transferIndex[a].includes(b)) transferIndex[a].push(b)`. -/
def tiAdd (m : OMap String (List String)) (a b : String) : OMap String (List String) :=
  let cur := tiGet m a
  if b ∈ cur then m else m.oset a (cur ++ [b])

/-- The geographic phase of `buildTransferIndex`: for every index pair
`i < j` of the stop-id list, one `haversine` distance is computed and,
when it is below 300 m, both directed links are inserted.  The distance
test (floating-point `haversine(s1.lat, s1.lon, s2.lat, s2.lon) < 300`,
evaluated once per pair) is abstracted as the predicate `near` on the
ordered pair of ids. -/
def geoPairsGo (near : String → String → Bool) :
    List String → OMap String (List String) → OMap String (List String)
  | [], m => m
  | a :: rest, m =>
    let m := rest.foldl (fun m b => if near a b then tiAdd (tiAdd m a b) b a else m) m
    geoPairsGo near rest m

/-- The manifest phase of `buildTransferIndex`: for every station of
`stations.json` with at least two member stop ids, add every ordered
pair of distinct members that are both present in the stop dictionary.
(The JS `if (!transferIndex[idA]) transferIndex[idA] = []` only ensures
key existence and does not change any membership.) -/
def stationPhase (dictIds : List String) (stations : List (List String))
    (m : OMap String (List String)) : OMap String (List String) :=
  stations.foldl
    (fun m sIds =>
      if sIds.length < 2 then m
      else
        sIds.foldl
          (fun m idA =>
            if idA ∉ dictIds then m
            else
              sIds.foldl
                (fun m idB =>
                  if idA ≠ idB ∧ idB ∈ dictIds then tiAdd m idA idB else m)
                m)
          m)
    m

/-- gtfs-ingest.js `buildTransferIndex`: `dictIds` is
`Object.keys(stopsDict)`, `near` abstracts the 300 m haversine test on
the stops' coordinates, `stations` the `stopIds` lists of
`stations.json`. -/
def buildTransferIndex (dictIds : List String) (near : String → String → Bool)
    (stations : List (List String)) : OMap String (List String) :=
  stationPhase dictIds stations (geoPairsGo near dictIds OMap.empty)

/-! ## C10: symmetry of the ingestion transfer index -/

/-- Symmetry of a transfer index: `b` is a sibling of `a` iff `a` is a
sibling of `b`. -/
def tiSymm (m : OMap String (List String)) : Prop :=
  ∀ a b : String, b ∈ tiGet m a ↔ a ∈ tiGet m b

/-! ## C2: Trenitalia time adjustment at scan time -/

/-- A stop-time row with both fields shifted through `tiAdjust` (used
only to state that the engine's at-read adjustment is equivalent to
scanning a pre-shifted copy, the stored trip being untouched). -/
def adjustRow (dateISO : Option String) (r : StopTime) : StopTime :=
  { r with dep_time := tiAdjust r.dep_time dateISO, arr_time := tiAdjust r.arr_time dateISO }

/-! ## C9: initialization seeding, origin set, transfer collapse -/

/-- The `tauBest` component of `initEntryStep` only depends on `tauBest`
itself: seed the sister when the seed improves it. -/
def initTauStep (startTime : Int) (oid : String) (tb : OMap String Int)
    (entry : TransferEntry) : OMap String Int :=
  if ltOpt (startTime + transferTime oid entry) (tb.oget entry.id) then
    tb.oset entry.id (startTime + transferTime oid entry)
  else tb

/-- The `tauBest` component of `initOriginStep` at the tau level. -/
def initSeedTau (startTime : Int) (tb : OMap String Int) (oid : String) : OMap String Int :=
  if (match tb.oget oid with | none => true | some v => decide (startTime < v)) = true then
    tb.oset oid startTime
  else tb

/-- The timetable of the C9 counterexample: one origin `A:o` whose only
transfer neighbour `A:n` is tagged inter-city, and one trip departing
from `A:n` at 3000 s arriving at `A:d` at 3100 s. -/
def cx9Env : Env :=
  { stops := [("A:o", ⟨"O", "A"⟩), ("A:n", ⟨"N", "A"⟩), ("A:d", ⟨"D", "A"⟩)]
    routesInfo := []
    routeTrips :=
      [("r1", [⟨"V1", "s", some 3000, some "TER", "A",
        [⟨0, "A:n", some 3000, none⟩, ⟨1, "A:d", none, some 3100⟩]⟩])]
    calendarIndex := []
    transferIndex := [("A:o", [TEntryRaw.obj "A:n" true])]
    stopsIndex := []
    stopNameMap := []
    jsnorm := id }

/-- The timetable of the C8 monotonicity failing input.  `A:o` is the
origin; its transfer sister `A:z` is reached by trip `T1` (dep 1000 at
`A:o`, arr 1010 at `A:z`); `A:z`'s own sister `A:w` is the boarding
stop of trip `U1` (dep 1200 at `A:w`, arr 1300 at `A:d`).  With start
time 0 the seed of `A:z` (0 + 180 = 180) beats the trip arrival 1010,
so `A:z` is never improved and the transfer to `A:w` never fires; with
start time 1000 the seed is 1180 > 1010, the trip improves `A:z`, the
transfer reaches `A:w` at 1190, and `U1` is boarded. -/
def cx8Env : Env :=
  { stops := [("A:o", ⟨"O", "A"⟩), ("A:z", ⟨"Z", "A"⟩), ("A:w", ⟨"W", "A"⟩),
      ("A:d", ⟨"D", "A"⟩)]
    routesInfo := []
    routeTrips :=
      [("r1", [⟨"T1", "s", some 1000, some "INOUI", "A",
        [⟨0, "A:o", some 1000, none⟩, ⟨1, "A:z", none, some 1010⟩]⟩]),
       ("r2", [⟨"U1", "s", some 1200, some "TER", "A",
        [⟨0, "A:w", some 1200, none⟩, ⟨1, "A:d", none, some 1300⟩]⟩])]
    calendarIndex := []
    transferIndex := [("A:o", [TEntryRaw.str "A:z"]), ("A:z", [TEntryRaw.str "A:w"])]
    stopsIndex := []
    stopNameMap := []
    jsnorm := id }

/-- Shape facts true of every journey assembled by `mkJourney` (hence of
every journey the engine returns): the train-type set is the deduplicated
list of the legs' (non-empty) types, the transfer count is the ride-leg
count minus one, and there is at least one leg. -/
def journeyWellFormed (j : Journey) : Prop :=
  j.train_types = sdedup ((j.legs.map (fun l => l.train_type)).filter (· ≠ ""))
    ∧ j.transfers = j.legs.length - 1 ∧ j.legs ≠ []

/-- The timetable of the C1 counterexample: an INOUI trip `A:o → A:b`
followed by a TER trip `A:b → A:d`; the search is filtered with the
allow-set `{INOUI}`. -/
def cx1Env : Env :=
  { stops := [("A:o", ⟨"O", "A"⟩), ("A:b", ⟨"B", "A"⟩), ("A:d", ⟨"D", "A"⟩)]
    routesInfo := []
    routeTrips :=
      [("r1", [⟨"T1", "s", some 1000, some "INOUI", "A",
        [⟨0, "A:o", some 1000, none⟩, ⟨1, "A:b", none, some 1100⟩]⟩]),
       ("r2", [⟨"U1", "s", some 1200, some "TER", "A",
        [⟨0, "A:b", some 1200, none⟩, ⟨1, "A:d", none, some 1300⟩]⟩])]
    calendarIndex := []
    transferIndex := []
    stopsIndex := []
    stopNameMap := []
    jsnorm := id }

/-! ## C5: advancement rules of the enumeration loop -/

/-- A timetable with no trips at all, on which every iteration of the
enumeration loop is empty. -/
def cx5Env : Env :=
  { stops := []
    routesInfo := []
    routeTrips := []
    calendarIndex := []
    transferIndex := []
    stopsIndex := []
    stopNameMap := []
    jsnorm := id }

/-! ## C7: unknown stop ids -/

/-- Whether `id` matches some stop of the dictionary through the
`StopArea:OCE(\d{8})` UIC-suffix expansion of `resolveStopIds`. -/
def matchesUic (env : Env) (id : String) : Bool :=
  match areaUic id with
  | some uic => env.stops.any (fun sp => decide (('-' :: uic.toList) <:+ sp.1.toList))
  | none => false

/-- A stop id unknown to the timetable: it has no transfer entry, occurs
in no trip's stop-time list, and its UIC expansion (if it parses as a
`StopArea:OCE` id) matches no stop of the dictionary. -/
def unknownStop (env : Env) (id : String) : Bool :=
  (transferEntries env id).isEmpty
  && env.routeTrips.all (fun rt => rt.2.all (fun trip =>
       trip.stop_times.all (fun st => decide (st.stop_id ≠ id))))
  && !(matchesUic env id)

/-- A small timetable (two stops of operator B linked by a transfer and
one trip) used to exercise the unknown-id path of the handler. -/
def cx7Env : Env :=
  { stops := [("B:x", ⟨"X", "B"⟩), ("B:y", ⟨"Y", "B"⟩)]
    routesInfo := []
    routeTrips :=
      [("r1", [⟨"T1", "s", some 1000, some "TER", "B",
        [⟨0, "B:x", some 1000, none⟩, ⟨1, "B:y", none, some 1100⟩]⟩])]
    calendarIndex := []
    transferIndex := [("B:x", [TEntryRaw.str "B:y"]), ("B:y", [TEntryRaw.str "B:x"])]
    stopsIndex := []
    stopNameMap := []
    jsnorm := id }

/-! ## Theorems -/

theorem jsInsert_perm {α : Type} (le : α → α → Bool) (x : α) (l : List α) :
    (jsInsert le x l).Perm (x :: l) := by
  induction l with
  | nil => simp [jsInsert]
  | cons y ys ih =>
    simp only [jsInsert]
    by_cases h : le x y ∧ ¬ le y x
    · simp [h]
    · simp only [if_neg h]
      exact ((ih.cons y).trans (List.Perm.swap x y ys))

theorem jsSort_perm {α : Type} (le : α → α → Bool) (l : List α) :
    (jsSort le l).Perm l := by
  induction l with
  | nil => simp [jsSort]
  | cons x xs ih =>
    exact (jsInsert_perm le x (jsSort le xs)).trans (ih.cons x)

theorem jsInsert_pairwise {α : Type} (le : α → α → Bool)
    (htot : ∀ a b, le a b ∨ le b a)
    (htrans : ∀ a b c, le a b → le b c → le a c)
    (x : α) (l : List α) (hl : l.Pairwise (fun a b => le a b = true)) :
    (jsInsert le x l).Pairwise (fun a b => le a b = true) := by
  induction l with
  | nil => simp [jsInsert]
  | cons y ys ih =>
    rcases hl with _ | ⟨hy, hys⟩
    simp only [jsInsert]
    by_cases h : le x y ∧ ¬ le y x
    · rw [if_pos h]
      refine List.Pairwise.cons ?_ (List.Pairwise.cons hy hys)
      intro z hz
      rcases List.mem_cons.mp hz with rfl | hz
      · exact h.1
      · exact htrans x y z h.1 (hy z hz)
    · have hyx : le y x := by
        by_cases hxy : le x y = true
        · by_cases hyx : le y x = true
          · exact hyx
          · exact absurd ⟨hxy, hyx⟩ h
        · rcases htot x y with h1 | h1
          · exact absurd h1 hxy
          · exact h1
      simp only [if_neg h]
      refine List.Pairwise.cons ?_ (ih hys)
      intro z hz
      have := (jsInsert_perm le x ys).mem_iff.mp hz
      rcases List.mem_cons.mp this with rfl | hz'
      · exact hyx
      · exact hy z hz'

theorem jsSort_pairwise {α : Type} (le : α → α → Bool)
    (htot : ∀ a b, le a b ∨ le b a)
    (htrans : ∀ a b c, le a b → le b c → le a c)
    (l : List α) :
    (jsSort le l).Pairwise (fun a b => le a b = true) := by
  induction l with
  | nil => simp [jsSort]
  | cons x xs ih => exact jsInsert_pairwise le htot htrans x (jsSort le xs) ih

/-! ## Basic lemmas about the map and set helpers -/

theorem OMap.oget_oset_self {κ α : Type} [DecidableEq κ] (m : OMap κ α) (k : κ) (v : α) :
    (m.oset k v).oget k = some v := by
  induction m with
  | nil => simp [OMap.oset, OMap.oget]
  | cons kv rest ih =>
    by_cases h : kv.1 = k
    · simp [OMap.oset, OMap.oget, h]
    · simp [OMap.oset, OMap.oget, h, ih]

theorem OMap.oget_oset_ne {κ α : Type} [DecidableEq κ] (m : OMap κ α) (k k' : κ) (v : α)
    (h : k' ≠ k) : (m.oset k v).oget k' = m.oget k' := by
  induction m with
  | nil => simp [OMap.oset, OMap.oget, Ne.symm h]
  | cons kv rest ih =>
    by_cases h1 : kv.1 = k
    · subst h1
      simp [OMap.oset, OMap.oget, Ne.symm h]
    · by_cases h2 : kv.1 = k'
      · simp [OMap.oset, OMap.oget, h1, h2, h]
      · simp [OMap.oset, OMap.oget, h1, h2, h, ih]

theorem OMap.okeys_oset {κ α : Type} [DecidableEq κ] (m : OMap κ α) (k : κ) (v : α) :
    OMap.okeys (m.oset k v) =
      if k ∈ OMap.okeys m then OMap.okeys m else OMap.okeys m ++ [k] := by
  induction m with
  | nil => simp [OMap.oset, OMap.okeys]
  | cons kv rest ih =>
    by_cases h : kv.1 = k
    · simp [OMap.oset, OMap.okeys, h]
    · simp only [OMap.oset, if_neg h, OMap.okeys, List.map_cons]
      simp only [OMap.okeys] at ih
      rw [ih]
      by_cases h2 : k ∈ rest.map (fun x => x.1)
      · simp [h2, Ne.symm h]
      · simp [h2, Ne.symm h]

theorem OMap.nodup_okeys_oset {κ α : Type} [DecidableEq κ] (m : OMap κ α) (k : κ) (v : α)
    (h : (OMap.okeys m).Nodup) : (OMap.okeys (m.oset k v)).Nodup := by
  rw [OMap.okeys_oset]
  by_cases hk : k ∈ OMap.okeys m
  · simpa [hk] using h
  · simpa [hk, List.nodup_append] using h

theorem OMap.mem_oset {κ α : Type} [DecidableEq κ] (m : OMap κ α) (k : κ) (v : α)
    (hm : (OMap.okeys m).Nodup) (p : κ × α) :
    p ∈ m.oset k v ↔ (p = (k, v) ∨ (p ∈ m ∧ p.1 ≠ k)) := by
  induction m with
  | nil => simp [OMap.oset]
  | cons kv rest ih =>
    obtain ⟨k1, v1⟩ := kv
    have hrest : (OMap.okeys rest).Nodup := (List.nodup_cons.mp hm).2
    have hknotin : (k1, v1).1 ∉ OMap.okeys rest := (List.nodup_cons.mp hm).1
    have ih' := ih hrest
    by_cases h : k1 = k
    · subst h
      simp only [OMap.oset, if_true]
      simp only [List.mem_cons]
      constructor
      · rintro (rfl | hp)
        · exact Or.inl rfl
        · refine Or.inr ⟨Or.inr hp, fun hk => hknotin ?_⟩
          have hmem := List.mem_map_of_mem (fun x : κ × α => x.1) hp
          simp only [OMap.okeys]
          simp only at hmem hk
          rw [← hk]
          exact hmem
      · rintro (rfl | ⟨hp | hp, hne⟩)
        · exact Or.inl rfl
        · exact absurd (by rw [hp]) hne
        · exact Or.inr hp
    · simp only [OMap.oset]
      rw [if_neg h]
      simp only [List.mem_cons, ih']
      constructor
      · rintro (rfl | rfl | ⟨hp, hne⟩)
        · exact Or.inr ⟨Or.inl rfl, h⟩
        · exact Or.inl rfl
        · exact Or.inr ⟨Or.inr hp, hne⟩
      · rintro (rfl | ⟨hp | hp, hne⟩)
        · exact Or.inr (Or.inl rfl)
        · exact Or.inl hp
        · exact Or.inr (Or.inr ⟨hp, hne⟩)

theorem OMap.oget_eq_some_of_mem {κ α : Type} [DecidableEq κ] (m : OMap κ α)
    (hm : (OMap.okeys m).Nodup) (k : κ) (v : α) (h : (k, v) ∈ m) : m.oget k = some v := by
  induction m with
  | nil => simp at h
  | cons kv rest ih =>
    have hrest : (OMap.okeys rest).Nodup := (List.nodup_cons.mp hm).2
    have hknotin : kv.1 ∉ OMap.okeys rest := (List.nodup_cons.mp hm).1
    rcases List.mem_cons.mp h with rfl | h
    · simp [OMap.oget]
    · have hne : kv.1 ≠ k := by
        intro he
        exact hknotin (he ▸ List.mem_map_of_mem Prod.fst h)
      simp [OMap.oget, hne, ih hrest h]

theorem OMap.mem_of_oget_eq_some {κ α : Type} [DecidableEq κ] (m : OMap κ α)
    (k : κ) (v : α) (h : m.oget k = some v) : (k, v) ∈ m := by
  induction m with
  | nil => simp [OMap.oget] at h
  | cons kv rest ih =>
    by_cases he : kv.1 = k
    · obtain ⟨k1, v1⟩ := kv
      simp only at he
      subst he
      simp [OMap.oget] at h
      subst h
      exact List.mem_cons_self _ _
    · simp only [OMap.oget, if_neg he] at h
      exact List.mem_cons_of_mem _ (ih h)

theorem mem_sadd (s : List String) (x y : String) : y ∈ sadd s x ↔ y ∈ s ∨ y = x := by
  unfold sadd
  by_cases h : x ∈ s
  · simp only [if_pos h]
    constructor
    · exact Or.inl
    · rintro (hy | rfl)
      · exact hy
      · exact h
  · simp [if_neg h]

theorem mem_sdedup_aux (xs acc : List String) (y : String) :
    y ∈ xs.foldl sadd acc ↔ y ∈ acc ∨ y ∈ xs := by
  induction xs generalizing acc with
  | nil => simp
  | cons x rest ih =>
    simp only [List.foldl_cons, ih, mem_sadd, List.mem_cons]
    tauto

theorem mem_sdedup (xs : List String) (y : String) : y ∈ sdedup xs ↔ y ∈ xs := by
  unfold sdedup
  simp [mem_sdedup_aux]

/-- Membership after a `tiAdd`: the old links plus the single directed
pair `(a, b)`. -/
theorem tiGet_tiAdd (m : OMap String (List String)) (a b x y : String) :
    x ∈ tiGet (tiAdd m a b) y ↔ x ∈ tiGet m y ∨ (y = a ∧ x = b) := by
  unfold tiAdd
  by_cases hc : b ∈ tiGet m a
  · simp only [if_pos hc]
    constructor
    · exact Or.inl
    · rintro (hx | ⟨rfl, rfl⟩)
      · exact hx
      · exact hc
  · simp only [if_neg hc]
    by_cases hy : y = a
    · subst hy
      unfold tiGet
      rw [OMap.oget_oset_self]
      simp only [Option.getD_some, List.mem_append, List.mem_singleton]
      tauto
    · unfold tiGet
      rw [OMap.oget_oset_ne _ _ _ _ hy]
      simp [hy]

theorem tiSymm_empty : tiSymm OMap.empty := by
  intro a b
  simp [tiGet, OMap.empty, OMap.oget]

theorem tiSymm_addPair {m : OMap String (List String)} (h : tiSymm m) (a b : String) :
    tiSymm (tiAdd (tiAdd m a b) b a) := by
  intro x y
  rw [tiGet_tiAdd, tiGet_tiAdd, tiGet_tiAdd, tiGet_tiAdd, h x y]
  tauto

theorem tiSymm_geoInner {m : OMap String (List String)} (near : String → String → Bool)
    (a : String) (rest : List String) (h : tiSymm m) :
    tiSymm (rest.foldl (fun m b => if near a b then tiAdd (tiAdd m a b) b a else m) m) := by
  induction rest generalizing m with
  | nil => exact h
  | cons b bs ih =>
    simp only [List.foldl_cons]
    by_cases hn : near a b
    · rw [if_pos hn]
      exact ih (tiSymm_addPair h a b)
    · rw [if_neg hn]
      exact ih h

theorem tiSymm_geoPairsGo (near : String → String → Bool) (ids : List String)
    {m : OMap String (List String)} (h : tiSymm m) : tiSymm (geoPairsGo near ids m) := by
  induction ids generalizing m with
  | nil => exact h
  | cons a rest ih =>
    simp only [geoPairsGo]
    exact ih (tiSymm_geoInner near a rest h)

/-- Membership after the inner manifest loop over `idB ∈ sIds` for a
fixed `idA`: the old links plus the pairs `(idA, x)` for the distinct
dictionary members `x` of the station. -/
theorem stationInner_mem (dictIds sIds : List String) (idA : String)
    (m : OMap String (List String)) (x y : String) :
    x ∈ tiGet (sIds.foldl
        (fun m idB => if idA ≠ idB ∧ idB ∈ dictIds then tiAdd m idA idB else m) m) y
      ↔ x ∈ tiGet m y ∨ (y = idA ∧ x ∈ sIds ∧ x ∈ dictIds ∧ x ≠ idA) := by
  induction sIds generalizing m with
  | nil => simp
  | cons idB rest ih =>
    simp only [List.foldl_cons]
    by_cases hc : idA ≠ idB ∧ idB ∈ dictIds
    · rw [if_pos hc]
      rw [ih]
      rw [tiGet_tiAdd]
      constructor
      · rintro ((hx | ⟨rfl, rfl⟩) | ⟨rfl, hxr, hxd, hxa⟩)
        · exact Or.inl hx
        · exact Or.inr ⟨rfl, List.mem_cons_self _ _, hc.2, Ne.symm hc.1⟩
        · exact Or.inr ⟨rfl, List.mem_cons_of_mem _ hxr, hxd, hxa⟩
      · rintro (hx | ⟨rfl, hxm, hxd, hxa⟩)
        · exact Or.inl (Or.inl hx)
        · rcases List.mem_cons.mp hxm with rfl | hxr
          · exact Or.inl (Or.inr ⟨rfl, rfl⟩)
          · exact Or.inr ⟨rfl, hxr, hxd, hxa⟩
    · rw [if_neg hc]
      rw [ih]
      constructor
      · rintro (hx | ⟨rfl, hxr, hxd, hxa⟩)
        · exact Or.inl hx
        · exact Or.inr ⟨rfl, List.mem_cons_of_mem _ hxr, hxd, hxa⟩
      · rintro (hx | ⟨rfl, hxm, hxd, hxa⟩)
        · exact Or.inl hx
        · rcases List.mem_cons.mp hxm with rfl | hxr
          · exact absurd ⟨Ne.symm hxa, hxd⟩ hc
          · exact Or.inr ⟨rfl, hxr, hxd, hxa⟩

/-- Membership after the full double loop of one station: the old links
plus every ordered pair of distinct dictionary members of the station. -/
theorem stationOuter_mem (dictIds sIds : List String) (asIds : List String)
    (m : OMap String (List String)) (x y : String) :
    x ∈ tiGet (asIds.foldl
        (fun m idA =>
          if idA ∉ dictIds then m
          else sIds.foldl
            (fun m idB => if idA ≠ idB ∧ idB ∈ dictIds then tiAdd m idA idB else m) m) m) y
      ↔ x ∈ tiGet m y
        ∨ (y ∈ asIds ∧ y ∈ dictIds ∧ x ∈ sIds ∧ x ∈ dictIds ∧ x ≠ y) := by
  induction asIds generalizing m with
  | nil => simp
  | cons idA rest ih =>
    simp only [List.foldl_cons]
    by_cases hd : idA ∉ dictIds
    · rw [if_pos hd]
      rw [ih]
      constructor
      · rintro (hx | ⟨hyr, hyd, hxs, hxd, hxy⟩)
        · exact Or.inl hx
        · exact Or.inr ⟨List.mem_cons_of_mem _ hyr, hyd, hxs, hxd, hxy⟩
      · rintro (hx | ⟨hym, hyd, hxs, hxd, hxy⟩)
        · exact Or.inl hx
        · rcases List.mem_cons.mp hym with rfl | hyr
          · exact absurd hyd hd
          · exact Or.inr ⟨hyr, hyd, hxs, hxd, hxy⟩
    · rw [if_neg hd]
      rw [ih]
      rw [stationInner_mem]
      push_neg at hd
      constructor
      · rintro ((hx | ⟨rfl, hxs, hxd, hxa⟩) | ⟨hyr, hyd, hxs, hxd, hxy⟩)
        · exact Or.inl hx
        · exact Or.inr ⟨List.mem_cons_self _ _, hd, hxs, hxd, hxa⟩
        · exact Or.inr ⟨List.mem_cons_of_mem _ hyr, hyd, hxs, hxd, hxy⟩
      · rintro (hx | ⟨hym, hyd, hxs, hxd, hxy⟩)
        · exact Or.inl (Or.inl hx)
        · rcases List.mem_cons.mp hym with rfl | hyr
          · exact Or.inl (Or.inr ⟨rfl, hxs, hxd, hxy⟩)
          · exact Or.inr ⟨hyr, hyd, hxs, hxd, hxy⟩

theorem tiSymm_stationPhase (dictIds : List String) (stations : List (List String))
    {m : OMap String (List String)} (h : tiSymm m) :
    tiSymm (stationPhase dictIds stations m) := by
  induction stations generalizing m with
  | nil => exact h
  | cons sIds rest ih =>
    simp only [stationPhase, List.foldl_cons]
    refine ih ?_
    by_cases hlen : sIds.length < 2
    · rw [if_pos hlen]
      exact h
    · rw [if_neg hlen]
      intro a b
      rw [stationOuter_mem, stationOuter_mem, h a b]
      tauto

/-- C10 — The transfer index produced by the ingestion pipeline's
`buildTransferIndex` is symmetric: for every two stop ids `a` and `b`,
`b` appears in the transfer list of `a` iff `a` appears in the transfer
list of `b`.  Both phases preserve symmetry: the geographic phase inserts
both directions of each sub-300 m pair under a single distance test, and
the manifest phase adds every ordered pair of distinct dictionary
members of a station. -/
theorem buildTransferIndex_symmetric (dictIds : List String)
    (near : String → String → Bool) (stations : List (List String)) (a b : String) :
    b ∈ tiGet (buildTransferIndex dictIds near stations) a
      ↔ a ∈ tiGet (buildTransferIndex dictIds near stations) b := by
  unfold buildTransferIndex
  exact tiSymm_stationPhase dictIds stations
    (tiSymm_geoPairsGo near dictIds tiSymm_empty) a b

/-! ## C4: the repaired stop-time list is sorted by time -/

theorem jsSort_timeLe_sorted (l : List StopTime) :
    (jsSort timeLe l).Pairwise (fun a b => timeKeyDep a ≤ timeKeyDep b) := by
  have h := jsSort_pairwise timeLe
    (by
      intro a b
      unfold timeLe
      rcases Int.le_total (timeKeyDep a) (timeKeyDep b) with h | h
      · exact Or.inl (by simpa using h)
      · exact Or.inr (by simpa using h))
    (by
      intro a b c hab hbc
      unfold timeLe at hab hbc ⊢
      simp only [decide_eq_true_eq] at hab hbc ⊢
      exact le_trans hab hbc)
    l
  refine h.imp ?_
  intro a b hab
  simpa [timeLe] using hab

/-- C4 — After the circular-trip repair of the ingestion pipeline (sort
by sequence, split at backward jumps of more than 10 minutes, re-merge
compatible segments, keep the longest, sort by time), the surviving
stop-time list is non-decreasing in time: consecutive (in fact all
ordered pairs of) surviving stop-times have non-decreasing time keys
`dep_time ?? arr_time ?? 0`, because both branches of the repair end by
sorting the surviving list with exactly that key. -/
theorem repairStops_time_sorted (stops : List StopTime) :
    (repairStops stops).Pairwise (fun a b => timeKeyDep a ≤ timeKeyDep b) := by
  unfold repairStops
  dsimp only
  split
  · exact jsSort_timeLe_sorted _
  · exact jsSort_timeLe_sorted _

theorem readDep_adjust (dateISO : Option String) (row : StopTime) :
    readDep true dateISO row = readDep false dateISO (adjustRow dateISO row) := by
  rcases row with ⟨seq, sid, dep, arr⟩
  cases dep <;> cases arr <;> cases dateISO <;> simp [readDep, adjustRow, tiAdjust]

theorem readArr_adjust (dateISO : Option String) (row : StopTime) :
    readArr true dateISO row = readArr false dateISO (adjustRow dateISO row) := by
  rcases row with ⟨seq, sid, dep, arr⟩
  cases dep <;> cases arr <;> cases dateISO <;> simp [readArr, adjustRow, tiAdjust]

theorem scanGo_adjust (c : ScanCtx) (hc : c.isTI = true) :
    ∀ (sts : List StopTime) (b : Option (String × Int)) (st : ScanSt),
    scanGo c sts b st
      = scanGo { c with isTI := false } (sts.map (adjustRow c.dateISO)) b st := by
  intro sts
  induction sts with
  | nil =>
    intro b st
    cases b <;> rfl
  | cons row rest ih =>
    intro b st
    cases b with
    | none =>
      simp only [List.map_cons, scanGo]
      have hsid : (adjustRow c.dateISO row).stop_id = row.stop_id := rfl
      rw [hsid]
      have hread : readDep ({ c with isTI := false } : ScanCtx).isTI
          ({ c with isTI := false } : ScanCtx).dateISO (adjustRow c.dateISO row)
          = readDep c.isTI c.dateISO row := by
        rw [hc]
        exact (readDep_adjust c.dateISO row).symm
      rw [hread]
      cases st.tauBest.oget row.stop_id with
      | none => exact ih none st
      | some tau =>
        cases readDep c.isTI c.dateISO row with
        | none => exact ih none st
        | some d =>
          by_cases hd : d ≥ tau
          · simp only [if_pos hd]
            exact ih (some (row.stop_id, d)) st
          · simp only [if_neg hd]
            exact ih none st
    | some b =>
      simp only [List.map_cons, scanGo]
      have hsid : (adjustRow c.dateISO row).stop_id = row.stop_id := rfl
      rw [hsid]
      have hread : readArr ({ c with isTI := false } : ScanCtx).isTI
          ({ c with isTI := false } : ScanCtx).dateISO (adjustRow c.dateISO row)
          = readArr c.isTI c.dateISO row := by
        rw [hc]
        exact (readArr_adjust c.dateISO row).symm
      rw [hread]
      cases readArr c.isTI c.dateISO row with
      | none => exact ih (some b) st
      | some a =>
        by_cases ha : ltOpt a (st.tauBest.oget row.stop_id) = true
        · simp only [if_pos ha]
          exact ih (some b) _
        · simp only [if_neg ha]
          exact ih (some b) st

/-- C2 — For every read of a departure or arrival time on a TI trip
during scanning, the engine adds 7200 s when the query date's month is
in 4–9, 3600 s otherwise, and 3600 s when the query has no date; the
stored stop-time values are never modified: scanning a TI trip with the
at-read adjustment is exactly scanning a shifted copy of its rows, the
trip itself being an untouched input of the pure scan. -/
theorem tiAdjust_scan_shift (s : Int) (d : String) (c : ScanCtx)
    (sts : List StopTime) (b : Option (String × Int)) (st : ScanSt) :
    (4 ≤ isoMonth d → isoMonth d ≤ 9 → tiAdjust (some s) (some d) = some (s + 7200)) ∧
    (¬ (4 ≤ isoMonth d ∧ isoMonth d ≤ 9) → tiAdjust (some s) (some d) = some (s + 3600)) ∧
    (tiAdjust (some s) none = some (s + 3600)) ∧
    (c.isTI = true →
      scanGo c sts b st
        = scanGo { c with isTI := false } (sts.map (adjustRow c.dateISO)) b st) := by
  refine ⟨fun h1 h2 => ?_, fun h => ?_, rfl, fun hc => scanGo_adjust c hc sts b st⟩
  · simp [tiAdjust, h1, h2]
  · simp [tiAdjust, h]

/-- Witness for C2: the summer shift (+7200 on 2025-06-15), the winter
shift (+3600 on 2025-11-15), the dateless shift (+3600), and the scan
equivalence on a concrete context. -/
theorem tiAdjust_scan_shift_witness :
    tiAdjust (some 39600) (some "2025-06-15") = some 46800 ∧
    tiAdjust (some 39600) (some "2025-11-15") = some 43200 ∧
    tiAdjust (some 39600) none = some 43200 ∧
    scanGo ⟨true, none, "t", "r", none, "TI"⟩ [] none ⟨[], [], []⟩
      = scanGo ⟨false, none, "t", "r", none, "TI"⟩ [] none ⟨[], [], []⟩ := by
  have h1 := tiAdjust_scan_shift 39600 "2025-06-15" ⟨true, none, "t", "r", none, "TI"⟩
    [] none ⟨[], [], []⟩
  have h2 := tiAdjust_scan_shift 39600 "2025-11-15" ⟨true, none, "t", "r", none, "TI"⟩
    [] none ⟨[], [], []⟩
  refine ⟨?_, ?_, h1.2.2.1, ?_⟩
  · have := h1.1 (by decide) (by decide)
    simpa using this
  · have := h2.2.1 (by decide)
    simpa using this
  · have := h1.2.2.2 rfl
    simpa using this

/-- C3 — The minimum transfer time added for every relaxed transfer edge
(`transferTime`, used by the initialization seeding and by the per-round
transfer relaxation of `raptorCore`): 180 s when the edge is not tagged
inter-city and the two endpoint ids carry the same operator prefix (as
computed by `extractOperator`, which defaults to `SNCF` for an
unprefixed id), 600 s for distinct prefixes, and 2700 s for an
inter-city edge. -/
theorem transferTime_categories (fromId : String) (e : TransferEntry) :
    (e.interCity = true → transferTime fromId e = 2700) ∧
    (e.interCity = false → extractOperator fromId = extractOperator e.id →
      transferTime fromId e = 180) ∧
    (e.interCity = false → extractOperator fromId ≠ extractOperator e.id →
      transferTime fromId e = 600) := by
  refine ⟨fun h => ?_, fun h1 h2 => ?_, fun h1 h2 => ?_⟩
  · simp only [transferTime, h, if_true]
    decide
  · simp only [transferTime, h1, h2, if_true]
    decide
  · simp only [transferTime, h1, h2, if_false]
    decide

/-- Witness for C3: a same-operator pair (3 min), a cross-operator pair
(10 min), and an inter-city edge (45 min). -/
theorem transferTime_categories_witness :
    transferTime "SNCF:a" ⟨"SNCF:b", false⟩ = 180 ∧
    transferTime "SNCF:a" ⟨"TI:b", false⟩ = 600 ∧
    transferTime "SNCF:a" ⟨"SNCF:b", true⟩ = 2700 := by
  refine ⟨?_, ?_, ?_⟩
  · exact (transferTime_categories "SNCF:a" ⟨"SNCF:b", false⟩).2.1 rfl (by decide)
  · exact (transferTime_categories "SNCF:a" ⟨"TI:b", false⟩).2.2 rfl (by decide)
  · exact (transferTime_categories "SNCF:a" ⟨"SNCF:b", true⟩).1 rfl

/-! ## C6: city-arrival deduplication -/

theorem dedupeStep_nodup (env : Env) (m : OMap (Int × String) Journey) (j : Journey)
    (h : (OMap.okeys m).Nodup) : (OMap.okeys (dedupeStep env m j)).Nodup := by
  unfold dedupeStep
  cases m.oget (jKey env j) with
  | none => exact OMap.nodup_okeys_oset m _ j h
  | some existing =>
    by_cases hd : j.duration < existing.duration
    · simpa [hd] using OMap.nodup_okeys_oset m _ j h
    · simpa [hd] using h

theorem dedupeStep_keycons (env : Env) (m : OMap (Int × String) Journey) (j : Journey)
    (hnd : (OMap.okeys m).Nodup)
    (h : ∀ kv ∈ m, jKey env kv.2 = kv.1) :
    ∀ kv ∈ dedupeStep env m j, jKey env kv.2 = kv.1 := by
  unfold dedupeStep
  intro kv
  cases hg : m.oget (jKey env j) with
  | none =>
    intro hkv
    rcases (OMap.mem_oset m _ j hnd kv).mp hkv with rfl | ⟨hkv, -⟩
    · rfl
    · exact h kv hkv
  | some existing =>
    by_cases hd : j.duration < existing.duration
    · simp only [hd, if_true]
      intro hkv
      rcases (OMap.mem_oset m _ j hnd kv).mp hkv with rfl | ⟨hkv, -⟩
      · rfl
      · exact h kv hkv
    · simp only [hd, if_false]
      exact h kv

theorem dedupeStep_oget_mono (env : Env) (m : OMap (Int × String) Journey) (j : Journey)
    (k : Int × String) (j0 : Journey) (h : m.oget k = some j0) :
    ∃ j1, (dedupeStep env m j).oget k = some j1 ∧ j1.duration ≤ j0.duration := by
  unfold dedupeStep
  by_cases hk : k = jKey env j
  · subst hk
    rw [h]
    by_cases hd : j.duration < j0.duration
    · exact ⟨j, by simp [hd, OMap.oget_oset_self], le_of_lt hd⟩
    · exact ⟨j0, by simp [hd, h], le_refl _⟩
  · cases hg : m.oget (jKey env j) with
    | none => exact ⟨j0, by rw [OMap.oget_oset_ne _ _ _ _ hk]; exact h, le_refl _⟩
    | some existing =>
      by_cases hd : j.duration < existing.duration
      · exact ⟨j0, by simp only [hd, if_true]; rw [OMap.oget_oset_ne _ _ _ _ hk]; exact h,
          le_refl _⟩
      · exact ⟨j0, by simp only [hd, if_false]; exact h, le_refl _⟩

theorem dedupeFold_oget_mono (env : Env) (l : List Journey)
    (m : OMap (Int × String) Journey) (k : Int × String) (j0 : Journey)
    (h : m.oget k = some j0) :
    ∃ j1, (l.foldl (dedupeStep env) m).oget k = some j1 ∧ j1.duration ≤ j0.duration := by
  induction l generalizing m j0 with
  | nil => exact ⟨j0, h, le_refl _⟩
  | cons x rest ih =>
    obtain ⟨j1, h1, hle1⟩ := dedupeStep_oget_mono env m x k j0 h
    obtain ⟨j2, h2, hle2⟩ := ih (dedupeStep env m x) j1 h1
    exact ⟨j2, h2, le_trans hle2 hle1⟩

theorem dedupeFold_dominates (env : Env) (l : List Journey)
    (m : OMap (Int × String) Journey) (r : Journey) (hr : r ∈ l) :
    ∃ j1, (l.foldl (dedupeStep env) m).oget (jKey env r) = some j1
      ∧ j1.duration ≤ r.duration := by
  induction l generalizing m with
  | nil => simp at hr
  | cons x rest ih =>
    rcases List.mem_cons.mp hr with rfl | hr
    · have hstep : ∃ j1, (dedupeStep env m r).oget (jKey env r) = some j1
          ∧ j1.duration ≤ r.duration := by
        unfold dedupeStep
        cases hg : m.oget (jKey env r) with
        | none => exact ⟨r, OMap.oget_oset_self _ _ _, le_refl _⟩
        | some existing =>
          by_cases hd : r.duration < existing.duration
          · exact ⟨r, by simp [hd, OMap.oget_oset_self], le_refl _⟩
          · exact ⟨existing, by simp [hd, hg], le_of_not_lt hd⟩
      obtain ⟨j1, h1, hle1⟩ := hstep
      obtain ⟨j2, h2, hle2⟩ := dedupeFold_oget_mono env rest (dedupeStep env m r) _ j1 h1
      exact ⟨j2, h2, le_trans hle2 hle1⟩
    · exact ih (dedupeStep env m x) hr

theorem dedupeFold_nodup_keycons (env : Env) (l : List Journey)
    (m : OMap (Int × String) Journey)
    (hnd : (OMap.okeys m).Nodup) (hkc : ∀ kv ∈ m, jKey env kv.2 = kv.1) :
    (OMap.okeys (l.foldl (dedupeStep env) m)).Nodup
      ∧ ∀ kv ∈ l.foldl (dedupeStep env) m, jKey env kv.2 = kv.1 := by
  induction l generalizing m with
  | nil => exact ⟨hnd, hkc⟩
  | cons x rest ih =>
    exact ih (dedupeStep env m x) (dedupeStep_nodup env m x hnd)
      (dedupeStep_keycons env m x hnd hkc)

theorem dedupeByArrCity_min (env : Env) (l : List Journey) :
    ∀ j ∈ dedupeByArrCity env l, ∀ r ∈ l, jKey env r = jKey env j →
      j.duration ≤ r.duration := by
  intro j hj r hr hkey
  unfold dedupeByArrCity at hj
  obtain ⟨kv, hkv, hj2⟩ := List.mem_map.mp hj
  have hbase := dedupeFold_nodup_keycons env l OMap.empty (by simp [OMap.empty, OMap.okeys])
    (by simp [OMap.empty])
  have hget : (l.foldl (dedupeStep env) OMap.empty).oget kv.1 = some kv.2 :=
    OMap.oget_eq_some_of_mem _ hbase.1 _ _ hkv
  have hk : jKey env kv.2 = kv.1 := hbase.2 kv hkv
  obtain ⟨j1, h1, hle1⟩ := dedupeFold_dominates env l OMap.empty r hr
  rw [hkey, ← hj2, hk, hget] at h1
  have h2 : kv.2 = j1 := by injection h1
  rw [← hj2, h2]
  exact hle1

theorem dedupeByArrCity_pairwise (env : Env) (l : List Journey) :
    (dedupeByArrCity env l).Pairwise (fun j k => jKey env j ≠ jKey env k) := by
  unfold dedupeByArrCity
  have hbase := dedupeFold_nodup_keycons env l OMap.empty (by simp [OMap.empty, OMap.okeys])
    (by simp [OMap.empty])
  have hnd := hbase.1
  have hkc := hbase.2
  unfold OMap.okeys at hnd
  have hpw : (l.foldl (dedupeStep env) OMap.empty).Pairwise (fun p q => p.1 ≠ q.1) :=
    (List.pairwise_map).mp hnd
  have hpw2 : (l.foldl (dedupeStep env) OMap.empty).Pairwise
      (fun p q => jKey env p.2 ≠ jKey env q.2) := by
    refine List.Pairwise.imp_of_mem ?_ hpw
    intro p q hp hq hne
    rw [hkc p hp, hkc q hq]
    exact hne
  unfold OMap.ovalues
  exact (List.pairwise_map).mpr hpw2

/-- C6 — After destination-city deduplication, no two kept journeys
share the same `(departure time, arrival city key)` pair, and every kept
journey has minimal duration among the deduplicated list's journeys with
that pair; the list returned by `searchJourneys` (the deduplicated map's
values, re-sorted and truncated) therefore also contains no two journeys
sharing that pair. -/
theorem searchJourneys_city_dedup (env : Env) (l : List Journey)
    (originIds destIds : List String) (startTime : Int) (stt : OMap String (List STEntry))
    (limit : Nat) (dateISO : Option String) (allowedTypes : Option (List String)) :
    (∀ j ∈ dedupeByArrCity env l, ∀ r ∈ l, jKey env r = jKey env j →
      j.duration ≤ r.duration) ∧
    (dedupeByArrCity env l).Pairwise (fun j k => jKey env j ≠ jKey env k) ∧
    (searchJourneys env originIds destIds startTime stt limit dateISO allowedTypes).Pairwise
      (fun j k => jKey env j ≠ jKey env k) := by
  refine ⟨dedupeByArrCity_min env l, dedupeByArrCity_pairwise env l, ?_⟩
  unfold searchJourneys
  dsimp only
  have hpw := dedupeByArrCity_pairwise env
    (jsSort cmpJourney (searchLoop env originIds destIds startTime stt limit dateISO
      allowedTypes (startTime + 14 * 3600) (limit + 40) startTime 0 [] []).1)
  have hperm := jsSort_perm cmpJourney (dedupeByArrCity env
    (jsSort cmpJourney (searchLoop env originIds destIds startTime stt limit dateISO
      allowedTypes (startTime + 14 * 3600) (limit + 40) startTime 0 [] []).1))
  have hsorted := (hperm.pairwise_iff (fun h => Ne.symm h)).mpr hpw
  exact List.Pairwise.sublist (List.take_sublist _ _) hsorted

/-- Witness for C6: two one-leg journeys with equal departure time and
arrival stop but different durations; only the faster one survives, and
the kept journey's duration bounds the slower one's. -/
theorem searchJourneys_city_dedup_witness :
    (dedupeByArrCity
        ⟨[], [], [], [], [], [], [], id⟩
        [⟨420, 560, "", "", 10, 0, [], [⟨"a", "x", "", "", 420, 560, "", "", none, none, "",
            "", "T", 2⟩]⟩,
         ⟨420, 540, "", "", 7, 0, [], [⟨"a", "x", "", "", 420, 540, "", "", none, none, "",
            "", "T", 2⟩]⟩]).Pairwise
      (fun j k => jKey ⟨[], [], [], [], [], [], [], id⟩ j
        ≠ jKey ⟨[], [], [], [], [], [], [], id⟩ k) ∧
    (7 : Int) ≤ 10 := by
  have h := searchJourneys_city_dedup ⟨[], [], [], [], [], [], [], id⟩
    [⟨420, 560, "", "", 10, 0, [], [⟨"a", "x", "", "", 420, 560, "", "", none, none, "",
        "", "T", 2⟩]⟩,
     ⟨420, 540, "", "", 7, 0, [], [⟨"a", "x", "", "", 420, 540, "", "", none, none, "",
        "", "T", 2⟩]⟩]
    [] [] 0 [] 0 none none
  refine ⟨h.2.1, ?_⟩
  have hmin := h.1
    ⟨420, 540, "", "", 7, 0, [], [⟨"a", "x", "", "", 420, 540, "", "", none, none, "",
        "", "T", 2⟩]⟩
    (by decide)
    ⟨420, 560, "", "", 10, 0, [], [⟨"a", "x", "", "", 420, 560, "", "", none, none, "",
        "", "T", 2⟩]⟩
    (by decide) (by decide)
  exact hmin

theorem initEntryStep_tauBest (env : Env) (startTime : Int) (oid : String)
    (st : RaptorInit) (entry : TransferEntry) :
    (initEntryStep env startTime oid st entry).tauBest
      = initTauStep startTime oid st.tauBest entry := by
  unfold initEntryStep initTauStep
  by_cases hlt : ltOpt (startTime + transferTime oid entry) (st.tauBest.oget entry.id) = true
  · by_cases hic : ¬ entry.interCity = true
    · simp [hlt, hic]
    · simp [hlt, hic]
  · by_cases hic : ¬ entry.interCity = true
    · simp [hlt, hic]
    · simp [hlt, hic]

theorem initEntries_tauBest (env : Env) (startTime : Int) (oid : String)
    (entries : List TransferEntry) (st : RaptorInit) :
    (entries.foldl (initEntryStep env startTime oid) st).tauBest
      = entries.foldl (initTauStep startTime oid) st.tauBest := by
  induction entries generalizing st with
  | nil => rfl
  | cons e rest ih =>
    simp only [List.foldl_cons]
    rw [ih, initEntryStep_tauBest]

theorem initTauStep_mono (startTime : Int) (oid : String) (tb : OMap String Int)
    (entry : TransferEntry) (k : String) (v : Int) (h : tb.oget k = some v) :
    ∃ v' ≤ v, (initTauStep startTime oid tb entry).oget k = some v' := by
  unfold initTauStep
  by_cases hlt : ltOpt (startTime + transferTime oid entry) (tb.oget entry.id) = true
  · by_cases hk : k = entry.id
    · subst hk
      rw [h] at hlt
      unfold ltOpt at hlt
      simp only [decide_eq_true_eq] at hlt
      exact ⟨startTime + transferTime oid entry, le_of_lt hlt,
        by rw [if_pos (by rw [h]; unfold ltOpt; simpa using hlt)]
           exact OMap.oget_oset_self _ _ _⟩
    · refine ⟨v, le_refl v, ?_⟩
      rw [if_pos hlt, OMap.oget_oset_ne _ _ _ _ hk]
      exact h
  · exact ⟨v, le_refl v, by rw [if_neg hlt]; exact h⟩

theorem initTauStep_bound (startTime : Int) (oid : String) (tb : OMap String Int)
    (entry : TransferEntry) :
    ∃ v ≤ startTime + transferTime oid entry,
      (initTauStep startTime oid tb entry).oget entry.id = some v := by
  unfold initTauStep
  by_cases hlt : ltOpt (startTime + transferTime oid entry) (tb.oget entry.id) = true
  · exact ⟨startTime + transferTime oid entry, le_refl _,
      by rw [if_pos hlt]; exact OMap.oget_oset_self _ _ _⟩
  · unfold ltOpt at hlt
    cases hg : tb.oget entry.id with
    | none => rw [hg] at hlt; simp at hlt
    | some v =>
      rw [hg] at hlt
      simp only [decide_eq_true_eq] at hlt
      push_neg at hlt
      refine ⟨v, hlt, ?_⟩
      have hne : ¬ ltOpt (startTime + transferTime oid entry) (some v) = true := by
        unfold ltOpt
        simpa using not_lt.mpr hlt
      rw [if_neg hne]
      exact hg

theorem initTauFold_mono (startTime : Int) (oid : String)
    (entries : List TransferEntry) (tb : OMap String Int) (k : String) (v : Int)
    (h : tb.oget k = some v) :
    ∃ v' ≤ v, (entries.foldl (initTauStep startTime oid) tb).oget k = some v' := by
  induction entries generalizing tb v with
  | nil => exact ⟨v, le_refl v, h⟩
  | cons e rest ih =>
    obtain ⟨v1, hle1, h1⟩ := initTauStep_mono startTime oid tb e k v h
    obtain ⟨v2, hle2, h2⟩ := ih (initTauStep startTime oid tb e) v1 h1
    exact ⟨v2, le_trans hle2 hle1, h2⟩

theorem initTauFold_bound (startTime : Int) (oid : String)
    (entries : List TransferEntry) (tb : OMap String Int) (e : TransferEntry)
    (he : e ∈ entries) :
    ∃ v ≤ startTime + transferTime oid e,
      (entries.foldl (initTauStep startTime oid) tb).oget e.id = some v := by
  induction entries generalizing tb with
  | nil => simp at he
  | cons e0 rest ih =>
    rcases List.mem_cons.mp he with rfl | he
    · obtain ⟨v, hle, h⟩ := initTauStep_bound startTime oid tb e
      obtain ⟨v', hle', h'⟩ := initTauFold_mono startTime oid rest _ e.id v h
      exact ⟨v', le_trans hle' hle, h'⟩
    · exact ih (initTauStep startTime oid tb e0) he

theorem initOriginStep_tauBest (env : Env) (startTime : Int) (st : RaptorInit)
    (oid : String) :
    (initOriginStep env startTime st oid).tauBest
      = (transferEntries env oid).foldl (initTauStep startTime oid)
          (initSeedTau startTime st.tauBest oid) := by
  unfold initOriginStep initSeedTau
  by_cases hseed : (match st.tauBest.oget oid with
      | none => true
      | some v => decide (startTime < v)) = true
  · rw [if_pos hseed, if_pos hseed]
    exact initEntries_tauBest env startTime oid (transferEntries env oid) _
  · rw [if_neg hseed, if_neg hseed]
    exact initEntries_tauBest env startTime oid (transferEntries env oid) _

theorem initSeedTau_mono (startTime : Int) (tb : OMap String Int) (oid : String)
    (k : String) (v : Int) (h : tb.oget k = some v) :
    ∃ v' ≤ v, (initSeedTau startTime tb oid).oget k = some v' := by
  unfold initSeedTau
  by_cases hseed : (match tb.oget oid with
      | none => true
      | some v => decide (startTime < v)) = true
  · rw [if_pos hseed]
    by_cases hk : k = oid
    · subst hk
      rw [h] at hseed
      simp only [decide_eq_true_eq] at hseed
      exact ⟨startTime, le_of_lt hseed, OMap.oget_oset_self _ _ _⟩
    · exact ⟨v, le_refl v, by rw [OMap.oget_oset_ne _ _ _ _ hk]; exact h⟩
  · exact ⟨v, le_refl v, by rw [if_neg hseed]; exact h⟩

theorem initOriginStep_tau_mono (env : Env) (startTime : Int) (st : RaptorInit)
    (oid : String) (k : String) (v : Int) (h : st.tauBest.oget k = some v) :
    ∃ v' ≤ v, (initOriginStep env startTime st oid).tauBest.oget k = some v' := by
  rw [initOriginStep_tauBest]
  obtain ⟨v1, hle1, h1⟩ := initSeedTau_mono startTime st.tauBest oid k v h
  obtain ⟨v2, hle2, h2⟩ := initTauFold_mono startTime oid (transferEntries env oid) _ k v1 h1
  exact ⟨v2, le_trans hle2 hle1, h2⟩

theorem initOrigins_tau_mono (env : Env) (startTime : Int) (origins : List String)
    (st : RaptorInit) (k : String) (v : Int) (h : st.tauBest.oget k = some v) :
    ∃ v' ≤ v, (origins.foldl (initOriginStep env startTime) st).tauBest.oget k = some v' := by
  induction origins generalizing st v with
  | nil => exact ⟨v, le_refl v, h⟩
  | cons o rest ih =>
    obtain ⟨v1, hle1, h1⟩ := initOriginStep_tau_mono env startTime st o k v h
    obtain ⟨v2, hle2, h2⟩ := ih (initOriginStep env startTime st o) v1 h1
    exact ⟨v2, le_trans hle2 hle1, h2⟩

theorem initOrigins_tau_bound (env : Env) (startTime : Int) (origins : List String)
    (st : RaptorInit) (o : String) (ho : o ∈ origins) (e : TransferEntry)
    (he : e ∈ transferEntries env o) :
    ∃ v ≤ startTime + transferTime o e,
      (origins.foldl (initOriginStep env startTime) st).tauBest.oget e.id = some v := by
  induction origins generalizing st with
  | nil => simp at ho
  | cons o0 rest ih =>
    rcases List.mem_cons.mp ho with rfl | ho
    · have hbound : ∃ v ≤ startTime + transferTime o e,
          (initOriginStep env startTime st o).tauBest.oget e.id = some v := by
        rw [initOriginStep_tauBest]
        exact initTauFold_bound startTime o (transferEntries env o) _ e he
      obtain ⟨v, hle, h⟩ := hbound
      obtain ⟨v', hle', h'⟩ := initOrigins_tau_mono env startTime rest _ e.id v h
      exact ⟨v', le_trans hle' hle, h'⟩
    · exact ih (initOriginStep env startTime st o0) ho

theorem initEntryStep_originSet (env : Env) (startTime : Int) (oid : String)
    (st : RaptorInit) (entry : TransferEntry) :
    (initEntryStep env startTime oid st entry).originSet
      = if entry.interCity = false then sadd st.originSet entry.id else st.originSet := by
  unfold initEntryStep
  by_cases hlt : ltOpt (startTime + transferTime oid entry) (st.tauBest.oget entry.id) = true
  · cases hic : entry.interCity <;> simp [hlt, hic]
  · cases hic : entry.interCity <;> simp [hlt, hic]

theorem initEntries_originSet (env : Env) (startTime : Int) (oid : String)
    (entries : List TransferEntry) (st : RaptorInit) (x : String) :
    x ∈ (entries.foldl (initEntryStep env startTime oid) st).originSet
      ↔ x ∈ st.originSet ∨ ∃ e ∈ entries, e.interCity = false ∧ e.id = x := by
  induction entries generalizing st with
  | nil => simp
  | cons e rest ih =>
    simp only [List.foldl_cons, ih, List.mem_cons]
    rw [initEntryStep_originSet]
    by_cases hic : e.interCity = false
    · rw [if_pos hic]
      rw [mem_sadd]
      constructor
      · rintro ((hx | rfl) | ⟨e1, he1, hic1, rfl⟩)
        · exact Or.inl hx
        · exact Or.inr ⟨e, Or.inl rfl, hic, rfl⟩
        · exact Or.inr ⟨e1, Or.inr he1, hic1, rfl⟩
      · rintro (hx | ⟨e1, he1 | he1, hic1, rfl⟩)
        · exact Or.inl (Or.inl hx)
        · subst he1
          exact Or.inl (Or.inr rfl)
        · exact Or.inr ⟨e1, he1, hic1, rfl⟩
    · rw [if_neg hic]
      constructor
      · rintro (hx | ⟨e1, he1, hic1, rfl⟩)
        · exact Or.inl hx
        · exact Or.inr ⟨e1, Or.inr he1, hic1, rfl⟩
      · rintro (hx | ⟨e1, he1 | he1, hic1, rfl⟩)
        · exact Or.inl hx
        · subst he1
          exact absurd hic1 hic
        · exact Or.inr ⟨e1, he1, hic1, rfl⟩

theorem initOriginStep_originSet (env : Env) (startTime : Int) (st : RaptorInit)
    (oid : String) (x : String) :
    x ∈ (initOriginStep env startTime st oid).originSet
      ↔ x ∈ st.originSet ∨ x = oid
        ∨ ∃ e ∈ transferEntries env oid, e.interCity = false ∧ e.id = x := by
  unfold initOriginStep
  by_cases hseed : (match st.tauBest.oget oid with
      | none => true
      | some v => decide (startTime < v)) = true
  · rw [if_pos hseed]
    rw [initEntries_originSet]
    simp only [mem_sadd]
    tauto
  · rw [if_neg hseed]
    rw [initEntries_originSet]
    simp only [mem_sadd]
    tauto

theorem raptorInit_originSet (env : Env) (startTime : Int) (origins : List String)
    (st : RaptorInit) (x : String) :
    x ∈ (origins.foldl (initOriginStep env startTime) st).originSet
      ↔ x ∈ st.originSet ∨ x ∈ origins
        ∨ ∃ o ∈ origins, ∃ e ∈ transferEntries env o, e.interCity = false ∧ e.id = x := by
  induction origins generalizing st with
  | nil => simp
  | cons o rest ih =>
    simp only [List.foldl_cons, ih, List.mem_cons]
    rw [initOriginStep_originSet]
    constructor
    · rintro ((hx | rfl | ⟨e, he, hic, rfl⟩) | hx | ⟨o1, ho1, he⟩)
      · exact Or.inl hx
      · exact Or.inr (Or.inl (Or.inl rfl))
      · exact Or.inr (Or.inr ⟨o, Or.inl rfl, e, he, hic, rfl⟩)
      · exact Or.inr (Or.inl (Or.inr hx))
      · exact Or.inr (Or.inr ⟨o1, Or.inr ho1, he⟩)
    · rintro (hx | (rfl | hx) | ⟨o1, ho1 | ho1, he⟩)
      · exact Or.inl (Or.inl hx)
      · exact Or.inl (Or.inr (Or.inl rfl))
      · exact Or.inr (Or.inl hx)
      · subst ho1
        exact Or.inl (Or.inr (Or.inr he))
      · exact Or.inr (Or.inr ⟨o1, ho1, he⟩)

theorem reconGo_transfers (env : Env) (parent : OMap String RParent)
    (originSet : List String) :
    ∀ (fuel : Nat) (current : String) (visited : List String) (legs : List Leg)
      (j : Journey),
    reconGo env parent originSet fuel current visited legs = some j →
    j.transfers = j.legs.length - 1 ∧ j.legs ≠ [] := by
  intro fuel
  induction fuel with
  | zero =>
    intro current visited legs j h
    rw [reconGo.eq_def] at h
    dsimp only at h
    by_cases hc : current ∈ originSet
    · rw [if_pos hc] at h
      cases legs with
      | nil => simp at h
      | cons l0 ls =>
        simp only [Option.some.injEq] at h
        subst h
        simp [mkJourney]
    · rw [if_neg hc] at h
      simp at h
  | succ fuel ih =>
    intro current visited legs j h
    rw [reconGo.eq_def] at h
    dsimp only at h
    by_cases hc : current ∈ originSet
    · rw [if_pos hc] at h
      cases legs with
      | nil => simp at h
      | cons l0 ls =>
        simp only [Option.some.injEq] at h
        subst h
        simp [mkJourney]
    · rw [if_neg hc] at h
      by_cases hv : current ∈ visited
      · rw [if_pos hv] at h
        simp at h
      · rw [if_neg hv] at h
        cases hp : parent.oget current with
        | none => rw [hp] at h; simp at h
        | some p =>
          rw [hp] at h
          dsimp only at h
          by_cases ht : p.is_transfer = true
          · rw [if_pos ht] at h
            exact ih _ _ _ _ h
          · rw [if_neg ht] at h
            exact ih _ _ _ _ h

/-- C9 (amended) — In search initialization every transfer neighbour of
an origin is seeded reachable no later than start time plus its transfer
time; the origin set is exactly the origins plus the non-inter-city
neighbours, so a neighbour whose edge is tagged inter-city-same-metro is
never added to it on account of that edge; and journey reconstruction
collapses transfer edges, reporting every journey with transfers equal
to its number of ride legs minus one — so a single-trip journey boarded
at such a neighbour reports zero transfers. -/
theorem raptorInit_seeding_originSet (env : Env) (origins : List String)
    (startTime : Int) (o : String) (e : TransferEntry) (x : String)
    (parent : OMap String RParent) (oset : List String) (destId : String) (j : Journey) :
    (o ∈ origins → e ∈ transferEntries env o →
      ∃ v ≤ startTime + transferTime o e,
        (raptorInit env origins startTime).tauBest.oget e.id = some v) ∧
    (x ∈ (raptorInit env origins startTime).originSet ↔
      x ∈ origins
        ∨ ∃ o' ∈ origins, ∃ e' ∈ transferEntries env o', e'.interCity = false ∧ e'.id = x) ∧
    (reconstructJourney env parent oset destId = some j →
      j.transfers = j.legs.length - 1 ∧ j.legs ≠ []) := by
  refine ⟨fun ho he => ?_, ?_, fun hj => ?_⟩
  · exact initOrigins_tau_bound env startTime origins _ o ho e he
  · unfold raptorInit
    rw [raptorInit_originSet]
    simp
  · exact reconGo_transfers env parent oset _ destId [] [] j hj

/-- Witness for C9's amended statement: a concrete origin with one
inter-city neighbour. -/
theorem raptorInit_seeding_originSet_witness :
    (∃ v ≤ (2700 : Int),
      (raptorInit ⟨[], [], [], [], [("A:o", [TEntryRaw.obj "A:n" true])], [], [], id⟩
        ["A:o"] 0).tauBest.oget "A:n" = some v) ∧
    ("A:n" ∉ (raptorInit ⟨[], [], [], [], [("A:o", [TEntryRaw.obj "A:n" true])], [], [], id⟩
        ["A:o"] 0).originSet) := by
  have h := raptorInit_seeding_originSet
    ⟨[], [], [], [], [("A:o", [TEntryRaw.obj "A:n" true])], [], [], id⟩
    ["A:o"] 0 "A:o" ⟨"A:n", true⟩ "A:n" [] [] "" ⟨0, 0, "", "", 0, 0, [], []⟩
  constructor
  · have hb := h.1 (by decide) (by decide)
    simpa using hb
  · intro hmem
    have := h.2.1.mp hmem
    rcases this with hx | ⟨o', ho', e', he', hic, hid⟩
    · simp at hx
    · simp only [List.mem_singleton] at ho'
      subst ho'
      have : e' = ⟨"A:n", true⟩ := by
        simpa [transferEntries, OMap.oget] using he'
      subst this
      simp at hic

/-- Counterexample to C9 as stated: at start time 0, the journey whose
(single) boarded trip departs from the inter-city neighbour `A:n` is
returned with `transfers = 0`, not with one transfer. -/
theorem interCity_neighbour_zero_transfers_counterexample :
    (raptorCore cx9Env ["A:o"] (some ["A:d"]) 0
        (buildStopToTrips cx9Env.routeTrips) none).map
      (fun j => (j.legs.map (fun l => l.from_id), j.transfers))
      = [(["A:n"], 0)] ∧ (0 : Nat) ≠ 1 := by
  exact ⟨by decide, by decide⟩

/-- C8 — the failing input for start-time monotonicity of the
round-based core: on the same timetable, date (none), origins `[A:o]`
and destinations `[A:d]`, the invocation with start time 0 yields no
journey (hence no arrival) at the destination, while the invocation
with the larger start time 1000 yields an arrival at 1300 — a strictly
later start produces a strictly better (indeed, the only) arrival,
contradicting the claimed monotonicity. -/
theorem raptorCore_startTime_monotonicity_bug :
    raptorCore cx8Env ["A:o"] (some ["A:d"]) 0
        (buildStopToTrips cx8Env.routeTrips) none = []
    ∧ (raptorCore cx8Env ["A:o"] (some ["A:d"]) 1000
        (buildStopToTrips cx8Env.routeTrips) none).map (fun j => j.arr_time) = [1300] := by
  exact ⟨by decide, by decide⟩

/-! ## C1: the train-type filter -/

theorem OMap.mem_oset_sub {κ α : Type} [DecidableEq κ] (m : OMap κ α) (k : κ) (v : α)
    (p : κ × α) (h : p ∈ m.oset k v) : p = (k, v) ∨ p ∈ m := by
  induction m with
  | nil => simpa [OMap.oset] using h
  | cons kv rest ih =>
    by_cases he : kv.1 = k
    · rw [OMap.oset, if_pos he] at h
      rcases List.mem_cons.mp h with rfl | h
      · obtain ⟨k1, v1⟩ := kv
        simp only at he
        subst he
        exact Or.inl rfl
      · exact Or.inr (List.mem_cons_of_mem _ h)
    · rw [OMap.oset, if_neg he] at h
      rcases List.mem_cons.mp h with rfl | h
      · exact Or.inr (List.mem_cons_self _ _)
      · rcases ih h with rfl | h
        · exact Or.inl rfl
        · exact Or.inr (List.mem_cons_of_mem _ h)

theorem dedupeByArrCity_sub (env : Env) (l : List Journey) (j : Journey)
    (hj : j ∈ dedupeByArrCity env l) : j ∈ l := by
  unfold dedupeByArrCity at hj
  obtain ⟨kv, hkv, hj2⟩ := List.mem_map.mp hj
  subst hj2
  suffices h : ∀ (m : OMap (Int × String) Journey),
      (∀ kv' ∈ m, (kv' : (Int × String) × Journey).2 ∈ l) →
      ∀ kv' ∈ l.foldl (dedupeStep env) m, (kv' : (Int × String) × Journey).2 ∈ l by
    exact h OMap.empty (by simp [OMap.empty]) kv hkv
  have hstep : ∀ (base : List Journey) (m : OMap (Int × String) Journey) (x : Journey),
      x ∈ base → (∀ kv' ∈ m, (kv' : (Int × String) × Journey).2 ∈ base) →
      ∀ kv' ∈ dedupeStep env m x, (kv' : (Int × String) × Journey).2 ∈ base := by
    intro base m x hx hm kv' hkv'
    unfold dedupeStep at hkv'
    rcases hg : m.oget (jKey env x) with _ | existing
    · rw [hg] at hkv'
      rcases OMap.mem_oset_sub m _ x kv' hkv' with rfl | hkv'
      · exact hx
      · exact hm kv' hkv'
    · rw [hg] at hkv'
      dsimp only at hkv'
      by_cases hd : x.duration < existing.duration
      · rw [if_pos hd] at hkv'
        rcases OMap.mem_oset_sub m _ x kv' hkv' with rfl | hkv'
        · exact hx
        · exact hm kv' hkv'
      · rw [if_neg hd] at hkv'
        exact hm kv' hkv'
  suffices hgen : ∀ (sub : List Journey) (m : OMap (Int × String) Journey),
      (∀ x ∈ sub, x ∈ l) →
      (∀ kv' ∈ m, (kv' : (Int × String) × Journey).2 ∈ l) →
      ∀ kv' ∈ sub.foldl (dedupeStep env) m, (kv' : (Int × String) × Journey).2 ∈ l by
    intro m hm
    exact hgen l m (fun x hx => hx) hm
  intro sub
  induction sub with
  | nil => intro m hsub hm kv' hkv'; exact hm kv' hkv'
  | cons x rest ih =>
    intro m hsub hm kv' hkv'
    simp only [List.foldl_cons] at hkv'
    exact ih (dedupeStep env m x) (fun y hy => hsub y (List.mem_cons_of_mem _ hy))
      (hstep l m x (hsub x (List.mem_cons_self _ _)) hm) kv' hkv'

theorem fnjStep_mem (startTime : Int) (S : List String)
    (acc : List Journey × List String × Int) (x j : Journey)
    (hj : j ∈ (fnjStep startTime (some S) acc x).1) :
    j ∈ acc.1 ∨ ∃ tt ∈ j.train_types, tt ∈ S := by
  unfold fnjStep at hj
  dsimp only at hj
  by_cases h1 : x.dep_time < startTime
  · rw [if_pos h1] at hj
    exact Or.inl hj
  · rw [if_neg h1] at hj
    by_cases h2 : x.train_types.any (fun tt => decide (tt ∈ S)) = true
    · have hcond : ¬ ((! x.train_types.any (fun tt => decide (tt ∈ S))) = true) := by
        simp [h2]
      rw [if_neg hcond] at hj
      by_cases h3 : tripKey x ∈ acc.2.1
      · rw [if_pos h3] at hj
        exact Or.inl hj
      · rw [if_neg h3] at hj
        rcases List.mem_append.mp hj with hj | hj
        · exact Or.inl hj
        · rw [List.mem_singleton] at hj
          subst hj
          obtain ⟨tt, htt, htt2⟩ := List.any_eq_true.mp h2
          exact Or.inr ⟨tt, htt, by simpa using htt2⟩
    · have hcond : (! x.train_types.any (fun tt => decide (tt ∈ S))) = true := by
        rw [Bool.not_eq_true] at h2
        simp [h2]
      rw [if_pos hcond] at hj
      exact Or.inl hj

theorem filterNewJourneys_mem (startTime : Int) (S : List String) (batch : List Journey)
    (results : List Journey) (seen : List String) (j : Journey)
    (hj : j ∈ (filterNewJourneys startTime (some S) batch results seen).1) :
    j ∈ results ∨ ∃ tt ∈ j.train_types, tt ∈ S := by
  unfold filterNewJourneys at hj
  suffices hgen : ∀ (b : List Journey) (acc : List Journey × List String × Int),
      (∀ r ∈ acc.1, r ∈ results ∨ ∃ tt ∈ r.train_types, tt ∈ S) →
      ∀ r ∈ (b.foldl (fnjStep startTime (some S)) acc).1,
        r ∈ results ∨ ∃ tt ∈ r.train_types, tt ∈ S by
    exact hgen batch (results, seen, -1) (fun r hr => Or.inl hr) j hj
  intro b
  induction b with
  | nil => intro acc hacc r hr; exact hacc r hr
  | cons x rest ih =>
    intro acc hacc r hr
    simp only [List.foldl_cons] at hr
    refine ih (fnjStep startTime (some S) acc x) ?_ r hr
    intro r' hr'
    rcases fnjStep_mem startTime S acc x r' hr' with hr' | hex
    · exact hacc r' hr'
    · exact Or.inr hex

theorem searchLoop_mem (env : Env) (originIds destIds : List String) (startTime : Int)
    (stt : OMap String (List STEntry)) (limit : Nat) (dateISO : Option String)
    (S : List String) (maxT : Int) :
    ∀ (fuel : Nat) (t : Int) (noNew : Nat) (results : List Journey) (seen : List String)
      (j : Journey),
    j ∈ (searchLoop env originIds destIds startTime stt limit dateISO (some S) maxT
        fuel t noNew results seen).1 →
    j ∈ results ∨ ∃ tt ∈ j.train_types, tt ∈ S := by
  intro fuel
  induction fuel with
  | zero =>
    intro t noNew results seen j hj
    exact Or.inl hj
  | succ fuel ih =>
    intro t noNew results seen j hj
    rw [searchLoop] at hj
    by_cases hg : results.length < limit ∧ t ≤ maxT
    · rw [if_pos hg] at hj
      dsimp only at hj
      by_cases h1 : (filterNewJourneys startTime (some S)
          (raptorCore env originIds (some destIds) t stt dateISO) results seen).2.2 ≥ 0
      · rw [if_pos h1] at hj
        rcases ih _ _ _ _ j hj with hj2 | hex
        · exact filterNewJourneys_mem startTime S _ results seen j hj2
        · exact Or.inr hex
      · rw [if_neg h1] at hj
        by_cases h2 : noNew + 1 ≥ 4 ∧ 0 < (filterNewJourneys startTime (some S)
            (raptorCore env originIds (some destIds) t stt dateISO) results seen).1.length
        · rw [if_pos h2] at hj
          exact filterNewJourneys_mem startTime S _ results seen j hj
        · rw [if_neg h2] at hj
          rcases ih _ _ _ _ j hj with hj2 | hex
          · exact filterNewJourneys_mem startTime S _ results seen j hj2
          · exact Or.inr hex
    · rw [if_neg hg] at hj
      exact Or.inl hj

theorem mkJourney_wf (l0 : Leg) (ls : List Leg) : journeyWellFormed (mkJourney l0 ls) := by
  unfold journeyWellFormed mkJourney
  refine ⟨rfl, rfl, by simp⟩

theorem reconGo_wf (env : Env) (parent : OMap String RParent) (originSet : List String) :
    ∀ (fuel : Nat) (current : String) (visited : List String) (legs : List Leg)
      (j : Journey),
    reconGo env parent originSet fuel current visited legs = some j →
    journeyWellFormed j := by
  intro fuel
  induction fuel with
  | zero =>
    intro current visited legs j h
    rw [reconGo.eq_def] at h
    dsimp only at h
    by_cases hc : current ∈ originSet
    · rw [if_pos hc] at h
      cases legs with
      | nil => simp at h
      | cons l0 ls =>
        simp only [Option.some.injEq] at h
        subst h
        exact mkJourney_wf l0 ls
    · rw [if_neg hc] at h
      simp at h
  | succ fuel ih =>
    intro current visited legs j h
    rw [reconGo.eq_def] at h
    dsimp only at h
    by_cases hc : current ∈ originSet
    · rw [if_pos hc] at h
      cases legs with
      | nil => simp at h
      | cons l0 ls =>
        simp only [Option.some.injEq] at h
        subst h
        exact mkJourney_wf l0 ls
    · rw [if_neg hc] at h
      by_cases hv : current ∈ visited
      · rw [if_pos hv] at h
        simp at h
      · rw [if_neg hv] at h
        cases hp : parent.oget current with
        | none => rw [hp] at h; simp at h
        | some p =>
          rw [hp] at h
          dsimp only at h
          by_cases ht : p.is_transfer = true
          · rw [if_pos ht] at h
            exact ih _ _ _ _ h
          · rw [if_neg ht] at h
            exact ih _ _ _ _ h

theorem reconstructJourney_wf (env : Env) (parent : OMap String RParent)
    (originSet : List String) (destId : String) (j : Journey)
    (h : reconstructJourney env parent originSet destId = some j) :
    journeyWellFormed j :=
  reconGo_wf env parent originSet _ destId [] [] j h

theorem destCollect_wf (env : Env) (originSet : List String) (sp : ScanSt)
    (tauPrev : OMap String Int) (Q : Journey → Prop)
    (hrec : ∀ did j, reconstructJourney env sp.parent originSet did = some j → Q j) :
    ∀ (ds : List String) (res : List Journey), (∀ r ∈ res, Q r) →
    ∀ r ∈ ds.foldl
        (fun res did =>
          match sp.tauCur.oget did with
          | some v =>
            if ltOpt v (tauPrev.oget did) then
              match reconstructJourney env sp.parent originSet did with
              | some j =>
                if res.any (fun r => tripKey r = tripKey j) then res else res ++ [j]
              | none => res
            else res
          | none => res)
        res,
      Q r := by
  intro ds
  induction ds with
  | nil => intro res hres r hr; exact hres r hr
  | cons did rest ih =>
    intro res hres r hr
    simp only [List.foldl_cons] at hr
    refine ih _ ?_ r hr
    intro r' hr'
    rcases hg : sp.tauCur.oget did with _ | v
    · rw [hg] at hr'
      exact hres r' hr'
    · rw [hg] at hr'
      dsimp only at hr'
      by_cases hlt : ltOpt v (tauPrev.oget did) = true
      · rw [if_pos hlt] at hr'
        rcases hrecon : reconstructJourney env sp.parent originSet did with _ | j0
        · rw [hrecon] at hr'
          exact hres r' hr'
        · rw [hrecon] at hr'
          dsimp only at hr'
          by_cases hdup : res.any (fun r => tripKey r = tripKey j0) = true
          · rw [if_pos hdup] at hr'
            exact hres r' hr'
          · rw [if_neg hdup] at hr'
            rcases List.mem_append.mp hr' with hr' | hr'
            · exact hres r' hr'
            · rw [List.mem_singleton] at hr'
              subst hr'
              exact hrec did r' hrecon
      · rw [if_neg hlt] at hr'
        exact hres r' hr'

theorem exploreCollect_wf (env : Env) (originSet : List String) (sp : ScanSt)
    (tauPrev : OMap String Int) (Q : Journey → Prop)
    (hrec : ∀ did j, reconstructJourney env sp.parent originSet did = some j → Q j) :
    ∀ (pairs : List (String × Int)) (acc : List Journey × List String),
      (∀ r ∈ acc.1, Q r) →
    ∀ r ∈ (pairs.foldl
        (fun (a : List Journey × List String) p =>
          if p.1 ∈ originSet ∨ p.1 ∈ a.2 then a
          else if ltOpt p.2 (tauPrev.oget p.1) then
            match reconstructJourney env sp.parent originSet p.1 with
            | some j => (a.1 ++ [j], a.2 ++ [p.1])
            | none => a
          else a)
        acc).1,
      Q r := by
  intro pairs
  induction pairs with
  | nil => intro acc hacc r hr; exact hacc r hr
  | cons p rest ih =>
    intro acc hacc r hr
    simp only [List.foldl_cons] at hr
    refine ih _ ?_ r hr
    intro r' hr'
    by_cases hskip : p.1 ∈ originSet ∨ p.1 ∈ acc.2
    · rw [if_pos hskip] at hr'
      exact hacc r' hr'
    · rw [if_neg hskip] at hr'
      by_cases hlt : ltOpt p.2 (tauPrev.oget p.1) = true
      · rw [if_pos hlt] at hr'
        rcases hrecon : reconstructJourney env sp.parent originSet p.1 with _ | j0
        · rw [hrecon] at hr'
          exact hacc r' hr'
        · rw [hrecon] at hr'
          dsimp only at hr'
          rcases List.mem_append.mp hr' with hr' | hr'
          · exact hacc r' hr'
          · rw [List.mem_singleton] at hr'
            subst hr'
            exact hrec p.1 r' hrecon
      · rw [if_neg hlt] at hr'
        exact hacc r' hr'

theorem raptorRound_results_wf (env : Env) (destSet : Option (List String))
    (stt : OMap String (List STEntry)) (dateISO : Option String)
    (originSet : List String) (st : RoundSt) (j : Journey)
    (hj : j ∈ (raptorRound env destSet stt dateISO originSet st).results) :
    j ∈ st.results ∨ journeyWellFormed j := by
  unfold raptorRound at hj
  cases destSet with
  | some dests =>
    dsimp only at hj
    exact destCollect_wf env originSet _ _ (fun r => r ∈ st.results ∨ journeyWellFormed r)
      (fun did j0 h => Or.inr (reconstructJourney_wf env _ originSet did j0 h))
      dests st.results (fun r hr => Or.inl hr) j hj
  | none =>
    dsimp only at hj
    exact exploreCollect_wf env originSet _ _ (fun r => r ∈ st.results ∨ journeyWellFormed r)
      (fun did j0 h => Or.inr (reconstructJourney_wf env _ originSet did j0 h))
      _ (st.results, st.collected) (fun r hr => Or.inl hr) j hj

theorem roundsGo_results_wf (env : Env) (destSet : Option (List String))
    (stt : OMap String (List STEntry)) (dateISO : Option String)
    (originSet : List String) :
    ∀ (n : Nat) (st : RoundSt) (j : Journey),
    j ∈ (roundsGo env destSet stt dateISO originSet n st).results →
    j ∈ st.results ∨ journeyWellFormed j := by
  intro n
  induction n with
  | zero => intro st j hj; exact Or.inl hj
  | succ n ih =>
    intro st j hj
    rw [roundsGo] at hj
    by_cases hm : (raptorRound env destSet stt dateISO originSet st).marked = []
    · rw [if_pos hm] at hj
      exact raptorRound_results_wf env destSet stt dateISO originSet st j hj
    · rw [if_neg hm] at hj
      rcases ih _ j hj with hj2 | hwf
      · exact raptorRound_results_wf env destSet stt dateISO originSet st j hj2
      · exact Or.inr hwf

theorem raptorCore_wf (env : Env) (originIds : List String) (destIds : Option (List String))
    (startTime : Int) (stt : OMap String (List STEntry)) (dateISO : Option String)
    (j : Journey) (hj : j ∈ raptorCore env originIds destIds startTime stt dateISO) :
    journeyWellFormed j := by
  unfold raptorCore at hj
  dsimp only at hj
  rcases roundsGo_results_wf env _ stt dateISO _ MAX_ROUNDS _ j hj with hj2 | hwf
  · simp at hj2
  · exact hwf

theorem fnjStep_prov (startTime : Int) (allowedTypes : Option (List String))
    (acc : List Journey × List String × Int) (x j : Journey)
    (hj : j ∈ (fnjStep startTime allowedTypes acc x).1) :
    j ∈ acc.1 ∨ j = x := by
  unfold fnjStep at hj
  by_cases h1 : x.dep_time < startTime
  · rw [if_pos h1] at hj
    exact Or.inl hj
  · rw [if_neg h1] at hj
    have htail : ∀ (hj2 : j ∈ (if tripKey x ∈ acc.2.1 then acc
        else (acc.1 ++ [x], acc.2.1 ++ [tripKey x],
          if x.dep_time > acc.2.2 then x.dep_time else acc.2.2)).1),
        j ∈ acc.1 ∨ j = x := by
      intro hj2
      by_cases h3 : tripKey x ∈ acc.2.1
      · rw [if_pos h3] at hj2
        exact Or.inl hj2
      · rw [if_neg h3] at hj2
        rcases List.mem_append.mp hj2 with hj2 | hj2
        · exact Or.inl hj2
        · exact Or.inr (List.mem_singleton.mp hj2)
    cases allowedTypes with
    | none =>
      dsimp only at hj
      rw [if_neg (by simp)] at hj
      exact htail hj
    | some allowed =>
      dsimp only at hj
      by_cases h2 : (! x.train_types.any (fun tt => decide (tt ∈ allowed))) = true
      · rw [if_pos h2] at hj
        exact Or.inl hj
      · rw [if_neg h2] at hj
        exact htail hj

theorem filterNewJourneys_prov (startTime : Int) (allowedTypes : Option (List String))
    (batch : List Journey) (results : List Journey) (seen : List String) (j : Journey)
    (hj : j ∈ (filterNewJourneys startTime allowedTypes batch results seen).1) :
    j ∈ results ∨ j ∈ batch := by
  unfold filterNewJourneys at hj
  suffices hgen : ∀ (b : List Journey) (acc : List Journey × List String × Int),
      (∀ y ∈ b, y ∈ batch) →
      (∀ r ∈ acc.1, r ∈ results ∨ r ∈ batch) →
      ∀ r ∈ (b.foldl (fnjStep startTime allowedTypes) acc).1, r ∈ results ∨ r ∈ batch by
    exact hgen batch (results, seen, -1) (fun y hy => hy) (fun r hr => Or.inl hr) j hj
  intro b
  induction b with
  | nil => intro acc hb hacc r hr; exact hacc r hr
  | cons x rest ih =>
    intro acc hb hacc r hr
    simp only [List.foldl_cons] at hr
    refine ih _ (fun y hy => hb y (List.mem_cons_of_mem _ hy)) ?_ r hr
    intro r' hr'
    rcases fnjStep_prov startTime allowedTypes acc x r' hr' with hr' | rfl
    · exact hacc r' hr'
    · exact Or.inr (hb r' (List.mem_cons_self _ _))

theorem searchLoop_wf (env : Env) (originIds destIds : List String) (startTime : Int)
    (stt : OMap String (List STEntry)) (limit : Nat) (dateISO : Option String)
    (allowedTypes : Option (List String)) (maxT : Int) :
    ∀ (fuel : Nat) (t : Int) (noNew : Nat) (results : List Journey) (seen : List String)
      (j : Journey),
    (∀ r ∈ results, journeyWellFormed r) →
    j ∈ (searchLoop env originIds destIds startTime stt limit dateISO allowedTypes maxT
        fuel t noNew results seen).1 →
    journeyWellFormed j := by
  intro fuel
  induction fuel with
  | zero =>
    intro t noNew results seen j hres hj
    exact hres j hj
  | succ fuel ih =>
    intro t noNew results seen j hres hj
    rw [searchLoop] at hj
    by_cases hg : results.length < limit ∧ t ≤ maxT
    · rw [if_pos hg] at hj
      dsimp only at hj
      have hacc : ∀ r ∈ (filterNewJourneys startTime allowedTypes
          (raptorCore env originIds (some destIds) t stt dateISO) results seen).1,
          journeyWellFormed r := by
        intro r hr
        rcases filterNewJourneys_prov startTime allowedTypes _ results seen r hr with h | h
        · exact hres r h
        · exact raptorCore_wf env originIds (some destIds) t stt dateISO r h
      by_cases h1 : (filterNewJourneys startTime allowedTypes
          (raptorCore env originIds (some destIds) t stt dateISO) results seen).2.2 ≥ 0
      · rw [if_pos h1] at hj
        exact ih _ _ _ _ j hacc hj
      · rw [if_neg h1] at hj
        by_cases h2 : noNew + 1 ≥ 4 ∧ 0 < (filterNewJourneys startTime allowedTypes
            (raptorCore env originIds (some destIds) t stt dateISO) results seen).1.length
        · rw [if_pos h2] at hj
          exact hacc j hj
        · rw [if_neg h2] at hj
          exact ih _ _ _ _ j hacc hj
    · rw [if_neg hg] at hj
      exact hres j hj

/-- C1 (amended) — With a supplied train-type allow-set `S`, every
journey returned by `searchJourneys` has AT LEAST ONE leg whose train
type lies in `S` (equivalently, its train-type set intersects `S`); the
filter does not require every leg's type to lie in `S`. -/
theorem trainTypeFilter_intersects_allowSet (env : Env) (originIds destIds : List String)
    (startTime : Int) (stt : OMap String (List STEntry)) (limit : Nat)
    (dateISO : Option String) (S : List String) (j : Journey)
    (hj : j ∈ searchJourneys env originIds destIds startTime stt limit dateISO (some S)) :
    (∃ tt ∈ j.train_types, tt ∈ S) ∧ (∃ l ∈ j.legs, l.train_type ∈ S) := by
  unfold searchJourneys at hj
  dsimp only at hj
  have hj1 := (List.take_sublist _ _).mem hj
  have hj2 := (jsSort_perm cmpJourney _).mem_iff.mp hj1
  have hj3 := dedupeByArrCity_sub env _ j hj2
  have hj4 := (jsSort_perm cmpJourney _).mem_iff.mp hj3
  have hex : ∃ tt ∈ j.train_types, tt ∈ S := by
    rcases searchLoop_mem env originIds destIds startTime stt limit dateISO S
        (startTime + 14 * 3600) (limit + 40) startTime 0 [] [] j hj4 with h | hex
    · simp at h
    · exact hex
  have hwf : journeyWellFormed j :=
    searchLoop_wf env originIds destIds startTime stt limit dateISO (some S)
      (startTime + 14 * 3600) (limit + 40) startTime 0 [] [] j (by simp) hj4
  refine ⟨hex, ?_⟩
  obtain ⟨tt, htt, httS⟩ := hex
  rw [hwf.1] at htt
  have htt2 := (mem_sdedup _ tt).mp htt
  have htt3 := List.mem_filter.mp htt2
  obtain ⟨l, hl, hlt⟩ := List.mem_map.mp htt3.1
  exact ⟨l, hl, by rw [hlt]; exact httS⟩

/-- Counterexample to C1 as stated: with allow-set `{INOUI}`,
`searchJourneys` returns the two-leg journey INOUI+TER (its TER leg's
type does not lie in the allow-set), because the filter only tests for a
non-empty intersection. -/
theorem trainTypeFilter_some_counterexample :
    ¬ (∀ j ∈ searchJourneys cx1Env ["A:o"] ["A:d"] 0
          (buildStopToTrips cx1Env.routeTrips) 8 none (some ["INOUI"]),
        ∀ l ∈ j.legs, l.train_type ∈ (["INOUI"] : List String)) := by
  decide

/-- Witness for C1's amended statement at the counterexample input: the
returned journey does have a leg with type in the allow-set. -/
theorem trainTypeFilter_intersects_witness :
    ∃ j ∈ searchJourneys cx1Env ["A:o"] ["A:d"] 0
        (buildStopToTrips cx1Env.routeTrips) 8 none (some ["INOUI"]),
      ∃ l ∈ j.legs, l.train_type ∈ (["INOUI"] : List String) := by
  have hne : searchJourneys cx1Env ["A:o"] ["A:d"] 0
      (buildStopToTrips cx1Env.routeTrips) 8 none (some ["INOUI"]) ≠ [] := by
    decide
  rcases hout : searchJourneys cx1Env ["A:o"] ["A:d"] 0
      (buildStopToTrips cx1Env.routeTrips) 8 none (some ["INOUI"]) with _ | ⟨j, rest⟩
  · exact absurd hout hne
  · have hj : j ∈ searchJourneys cx1Env ["A:o"] ["A:d"] 0
        (buildStopToTrips cx1Env.routeTrips) 8 none (some ["INOUI"]) := by
      rw [hout]
      exact List.mem_cons_self _ _
    have h := (trainTypeFilter_intersects_allowSet cx1Env ["A:o"] ["A:d"] 0
      (buildStopToTrips cx1Env.routeTrips) 8 none ["INOUI"] j hj).2
    exact ⟨j, List.mem_cons_self _ _, h⟩

/-- One filtering step never decreases the running maximal departure
time of the newly added journeys. -/
theorem fnjStep_maxDep_le (startTime : Int) (allowedTypes : Option (List String))
    (acc : List Journey × List String × Int) (j : Journey) :
    acc.2.2 ≤ (fnjStep startTime allowedTypes acc j).2.2 := by
  unfold fnjStep
  dsimp only
  split
  · exact le_refl _
  · split
    · exact le_refl _
    · split
      · exact le_refl _
      · dsimp only
        split
        · next h => exact le_of_lt h
        · exact le_refl _

/-- One filtering step either leaves the accumulator unchanged or makes
the running maximal departure time non-negative (journeys that survive
the filter depart no earlier than the non-negative start time). -/
theorem fnjStep_eq_or_nonneg (startTime : Int) (allowedTypes : Option (List String))
    (hst : 0 ≤ startTime) (acc : List Journey × List String × Int) (j : Journey) :
    fnjStep startTime allowedTypes acc j = acc ∨
      0 ≤ (fnjStep startTime allowedTypes acc j).2.2 := by
  unfold fnjStep
  dsimp only
  split
  · exact Or.inl rfl
  · next h1 =>
    split
    · exact Or.inl rfl
    · split
      · exact Or.inl rfl
      · right
        dsimp only
        split
        · exact le_trans hst (le_of_not_lt h1)
        · next h4 => exact le_trans (le_trans hst (le_of_not_lt h1)) (le_of_not_lt h4)

/-- The running maximal departure time is monotone along the batch fold. -/
theorem fnjFold_maxDep_le (startTime : Int) (allowedTypes : Option (List String)) :
    ∀ (batch : List Journey) (acc : List Journey × List String × Int),
    acc.2.2 ≤ (batch.foldl (fnjStep startTime allowedTypes) acc).2.2 := by
  intro batch
  induction batch with
  | nil => intro acc; exact le_refl _
  | cons x rest ih =>
    intro acc
    simp only [List.foldl_cons]
    exact le_trans (fnjStep_maxDep_le startTime allowedTypes acc x) (ih _)

/-- If the fold over a batch ends with a negative maximal departure
time, no step changed anything. -/
theorem fnjFold_fix (startTime : Int) (allowedTypes : Option (List String))
    (hst : 0 ≤ startTime) :
    ∀ (batch : List Journey) (acc : List Journey × List String × Int),
    (batch.foldl (fnjStep startTime allowedTypes) acc).2.2 < 0 →
    batch.foldl (fnjStep startTime allowedTypes) acc = acc := by
  intro batch
  induction batch with
  | nil => intro acc _; rfl
  | cons x rest ih =>
    intro acc hneg
    simp only [List.foldl_cons] at hneg ⊢
    rcases fnjStep_eq_or_nonneg startTime allowedTypes hst acc x with he | hge
    · rw [he] at hneg ⊢
      exact ih acc hneg
    · exact absurd hneg (not_lt.mpr (le_trans hge
        (fnjFold_maxDep_le startTime allowedTypes rest _)))

/-- A filtering pass that reports no new journey (`maxDep = -1 < 0`)
returns the incoming results and seen-set unchanged. -/
theorem filterNewJourneys_fix (startTime : Int) (allowedTypes : Option (List String))
    (batch : List Journey) (results : List Journey) (seen : List String)
    (hst : 0 ≤ startTime)
    (hneg : (filterNewJourneys startTime allowedTypes batch results seen).2.2 < 0) :
    filterNewJourneys startTime allowedTypes batch results seen = (results, seen, -1) := by
  unfold filterNewJourneys at hneg ⊢
  exact fnjFold_fix startTime allowedTypes hst batch (results, seen, -1) hneg

/-- C5 (amended): the advancement rules of `searchJourneys`'s enumeration
loop, for a non-negative initial start time.  (i) An iteration that adds
at least one new journey continues at the maximal departure time over
the new journeys plus 1 s, resetting the empty-iteration counter.
(ii) An iteration that adds none advances the start time by 1800 s and
continues — even past 4 consecutive empty advances — as long as no
journey has been collected yet.  (iii) Only when at least one journey
has been collected does the 4th consecutive empty advance stop the loop.
(iv) The loop stops when the start time exceeds the initial start time
plus 14 h (`maxT`) or the result limit is reached. -/
theorem searchLoop_advance_rules (env : Env) (originIds destIds : List String)
    (startTime : Int) (stt : OMap String (List STEntry)) (limit : Nat)
    (dateISO : Option String) (allowedTypes : Option (List String)) (maxT : Int)
    (fuel : Nat) (t : Int) (noNew : Nat) (results : List Journey) (seen : List String)
    (acc : List Journey × List String × Int)
    (hst : 0 ≤ startTime)
    (hacc : acc = filterNewJourneys startTime allowedTypes
      (raptorCore env originIds (some destIds) t stt dateISO) results seen) :
    (results.length < limit → t ≤ maxT → acc.2.2 ≥ 0 →
      searchLoop env originIds destIds startTime stt limit dateISO allowedTypes maxT
        (fuel + 1) t noNew results seen =
      searchLoop env originIds destIds startTime stt limit dateISO allowedTypes maxT
        fuel (acc.2.2 + 1) 0 acc.1 acc.2.1) ∧
    (results.length < limit → t ≤ maxT → acc.2.2 < 0 →
      ¬ (noNew + 1 ≥ 4 ∧ 0 < results.length) →
      searchLoop env originIds destIds startTime stt limit dateISO allowedTypes maxT
        (fuel + 1) t noNew results seen =
      searchLoop env originIds destIds startTime stt limit dateISO allowedTypes maxT
        fuel (t + 1800) (noNew + 1) results seen) ∧
    (results.length < limit → t ≤ maxT → acc.2.2 < 0 →
      noNew + 1 ≥ 4 → 0 < results.length →
      searchLoop env originIds destIds startTime stt limit dateISO allowedTypes maxT
        (fuel + 1) t noNew results seen = (results, t + 1800, noNew + 1)) ∧
    (¬ (results.length < limit ∧ t ≤ maxT) →
      searchLoop env originIds destIds startTime stt limit dateISO allowedTypes maxT
        (fuel + 1) t noNew results seen = (results, t, noNew)) := by
  refine ⟨?_, ?_, ?_, ?_⟩
  · intro h1 h2 h3
    rw [searchLoop, if_pos ⟨h1, h2⟩]
    dsimp only
    rw [← hacc, if_pos h3]
  · intro h1 h2 h3 h4
    rw [hacc] at h3
    have hfix := filterNewJourneys_fix startTime allowedTypes
      (raptorCore env originIds (some destIds) t stt dateISO) results seen hst h3
    rw [searchLoop, if_pos ⟨h1, h2⟩]
    dsimp only
    rw [hfix]
    dsimp only
    rw [if_neg (by decide : ¬ ((-1 : Int) ≥ 0)), if_neg h4]
  · intro h1 h2 h3 h4 h5
    rw [hacc] at h3
    have hfix := filterNewJourneys_fix startTime allowedTypes
      (raptorCore env originIds (some destIds) t stt dateISO) results seen hst h3
    rw [searchLoop, if_pos ⟨h1, h2⟩]
    dsimp only
    rw [hfix]
    dsimp only
    rw [if_neg (by decide : ¬ ((-1 : Int) ≥ 0)), if_pos ⟨h4, h5⟩]
  · intro h
    rw [searchLoop, if_neg h]

/-- Witness for C5's amended rules on the empty timetable: at start the
iteration is empty (rule ii), so the loop continues at `t = 1800` with
one empty advance recorded. -/
theorem searchLoop_advance_rules_witness :
    searchLoop cx5Env ["A:o"] ["A:d"] 0 [] 8 none none 50400 48 0 0 [] [] =
      searchLoop cx5Env ["A:o"] ["A:d"] 0 [] 8 none none 50400 47 1800 1 [] [] := by
  have h := (searchLoop_advance_rules cx5Env ["A:o"] ["A:d"] 0 [] 8 none none 50400
    47 0 0 [] [] ([], [], -1) (by decide) (by decide)).2.1
  exact h (by decide) (by decide) (by decide) (by decide)

/-- Counterexample to C5 as stated: on the empty timetable (no journey is
ever found) the loop does not stop after 4 consecutive empty advances; it
keeps advancing by 1800 s for the whole 14-hour window, accumulating 29
consecutive empty advances. -/
theorem searchLoop_empty_advances_counterexample :
    searchLoop cx5Env ["A:o"] ["A:d"] 0 [] 8 none none 50400 48 0 0 [] [] =
      ([], 52200, 29) ∧ ¬ ((29 : Nat) ≤ 4) := by
  refine ⟨by decide, by decide⟩

/-- A fold whose step fixes every accumulator on the list's elements
returns its initial accumulator. -/
theorem foldl_id_of_fix {α β : Type} (l : List α) (init : β) (f : β → α → β)
    (h : ∀ b : β, ∀ x ∈ l, f b x = b) : l.foldl f init = init := by
  induction l generalizing init with
  | nil => rfl
  | cons x rest ih =>
    rw [List.foldl_cons, h init x (List.mem_cons_self _ _)]
    exact ih _ (fun b y hy => h b y (List.mem_cons_of_mem _ hy))

/-- Unknown ids are returned by `resolveStopIds` as given (deduplicated):
they trigger no UIC expansion and no transfer-sister expansion. -/
theorem resolveStopIds_unknown (env : Env) (ids : List String) (mode : String)
    (h : ∀ id ∈ ids, unknownStop env id = true) :
    resolveStopIds env ids mode = sdedup ids := by
  unfold resolveStopIds
  refine foldl_id_of_fix ids (sdedup ids) _ ?_
  intro out id hid
  have h3 := h id hid
  unfold unknownStop at h3
  rw [Bool.and_eq_true, Bool.and_eq_true] at h3
  obtain ⟨⟨hteB, _⟩, huicB⟩ := h3
  have hte : transferEntries env id = [] := by
    cases hh : transferEntries env id with
    | nil => rfl
    | cons a l => rw [hh] at hteB; exact absurd hteB (by simp [List.isEmpty])
  have huic : matchesUic env id = false := by
    cases hh : matchesUic env id with
    | false => rfl
    | true => rw [hh] at huicB; exact absurd huicB (by decide)
  dsimp only
  rw [hte]
  simp only [List.foldl_nil]
  cases hau : areaUic id with
  | none => rfl
  | some uic =>
    dsimp only
    refine foldl_id_of_fix env.stops out _ ?_
    intro out' sp hsp
    have hdec : decide (('-' :: uic.toList) <:+ sp.1.toList) = false := by
      unfold matchesUic at huic
      rw [hau] at huic
      have := List.any_eq_false.mp huic sp hsp
      exact Bool.not_eq_true _ ▸ Bool.eq_false_iff.mpr this
    rw [hdec]
    simp

/-- The second component of an enumerated pair is an element of the
enumerated list. -/
theorem snd_mem_of_mem_enumFrom {α : Type} :
    ∀ (l : List α) (n : Nat) (p : Nat × α), p ∈ l.enumFrom n → p.2 ∈ l := by
  intro l
  induction l with
  | nil => intro n p hp; simp [List.enumFrom] at hp
  | cons x rest ih =>
    intro n p hp
    rw [List.enumFrom] at hp
    rcases List.mem_cons.mp hp with rfl | hp
    · exact List.mem_cons_self _ _
    · exact List.mem_cons_of_mem _ (ih _ _ hp)

/-- A stop id occurring in no trip of the data gets no entry in the
stop→trips index. -/
theorem buildStopToTrips_oget_none (tripsData : OMap String (List Trip)) (id : String)
    (h : ∀ rt ∈ tripsData, ∀ trip ∈ rt.2, ∀ st ∈ trip.stop_times, st.stop_id ≠ id) :
    (buildStopToTrips tripsData).oget id = none := by
  unfold buildStopToTrips
  suffices hgen : ∀ (l : OMap String (List Trip)),
      (∀ rt ∈ l, ∀ trip ∈ rt.2, ∀ st ∈ trip.stop_times, st.stop_id ≠ id) →
      ∀ (index : OMap String (List STEntry)), OMap.oget index id = none →
      OMap.oget
        (l.foldl
          (fun index rt =>
            rt.2.foldl
              (fun index trip =>
                trip.stop_times.enum.foldl
                  (fun index p =>
                    index.oset p.2.stop_id
                      (((index.oget p.2.stop_id).getD []) ++ [⟨rt.1, trip, p.1⟩]))
                  index)
              index)
          index) id = none by
    exact hgen tripsData h OMap.empty rfl
  have henum : ∀ (rid : String) (trip : Trip) (l : List (Nat × StopTime))
      (index : OMap String (List STEntry)),
      (∀ p ∈ l, p.2.stop_id ≠ id) → OMap.oget index id = none →
      OMap.oget
        (l.foldl
          (fun index p =>
            index.oset p.2.stop_id
              (((index.oget p.2.stop_id).getD []) ++ [⟨rid, trip, p.1⟩]))
          index) id = none := by
    intro rid trip l
    induction l with
    | nil => intro index _ hidx; exact hidx
    | cons p rest ih =>
      intro index hl hidx
      rw [List.foldl_cons]
      refine ih _ (fun q hq => hl q (List.mem_cons_of_mem _ hq)) ?_
      rw [OMap.oget_oset_ne _ _ _ _ (Ne.symm (hl p (List.mem_cons_self _ _)))]
      exact hidx
  have htrips : ∀ (rid : String) (trips : List Trip)
      (index : OMap String (List STEntry)),
      (∀ trip ∈ trips, ∀ st ∈ trip.stop_times, st.stop_id ≠ id) →
      OMap.oget index id = none →
      OMap.oget
        (trips.foldl
          (fun index trip =>
            trip.stop_times.enum.foldl
              (fun index p =>
                index.oset p.2.stop_id
                  (((index.oget p.2.stop_id).getD []) ++ [⟨rid, trip, p.1⟩]))
              index)
          index) id = none := by
    intro rid trips
    induction trips with
    | nil => intro index _ hidx; exact hidx
    | cons trip rest ih =>
      intro index hl hidx
      rw [List.foldl_cons]
      refine ih _ (fun t ht => hl t (List.mem_cons_of_mem _ ht)) ?_
      refine henum rid trip _ index ?_ hidx
      intro p hp
      exact hl trip (List.mem_cons_self _ _) p.2 (snd_mem_of_mem_enumFrom _ _ _ hp)
  intro l
  induction l with
  | nil => intro _ index hidx; exact hidx
  | cons rt rest ih =>
    intro hl index hidx
    rw [List.foldl_cons]
    refine ih (fun rt' hrt' => hl rt' (List.mem_cons_of_mem _ hrt')) _ ?_
    exact htrips rt.1 rt.2 index (hl rt (List.mem_cons_self _ _)) hidx

/-- A stop id occurring in no trip gets no entry in the date-filtered
stop→trips index either. -/
theorem getFilteredData_oget_none (env : Env) (dateISO : Option String) (id : String)
    (h : ∀ rt ∈ env.routeTrips, ∀ trip ∈ rt.2, ∀ st ∈ trip.stop_times, st.stop_id ≠ id) :
    (getFilteredData env dateISO).oget id = none := by
  unfold getFilteredData
  cases dateISO with
  | none => exact buildStopToTrips_oget_none _ _ h
  | some d =>
    dsimp only
    cases hact : getActiveServices env d with
    | none => exact buildStopToTrips_oget_none _ _ h
    | some active =>
      dsimp only
      refine buildStopToTrips_oget_none _ _ ?_
      suffices hgen : ∀ (l : OMap String (List Trip)),
          (∀ rt ∈ l, ∀ trip ∈ rt.2, ∀ st ∈ trip.stop_times, st.stop_id ≠ id) →
          ∀ (acc : OMap String (List Trip)),
          (∀ rt ∈ acc, ∀ trip ∈ rt.2, ∀ st ∈ trip.stop_times, st.stop_id ≠ id) →
          ∀ rt' ∈ l.foldl
            (fun acc rt =>
              let valid := rt.2.filter (fun t => decide (t.service_id ∈ active))
              if valid ≠ [] then acc ++ [(rt.1, valid)] else acc)
            acc, ∀ trip ∈ rt'.2, ∀ st ∈ trip.stop_times, st.stop_id ≠ id by
        exact hgen env.routeTrips h [] (by intro rt hrt; simp at hrt)
      intro l
      induction l with
      | nil => intro _ acc hacc rt' hrt'; exact hacc rt' hrt'
      | cons rt rest ih =>
        intro hl acc hacc
        rw [List.foldl_cons]
        refine ih (fun r hr => hl r (List.mem_cons_of_mem _ hr)) _ ?_
        intro rt' hrt'
        dsimp only at hrt'
        by_cases hv : rt.2.filter (fun t => decide (t.service_id ∈ active)) ≠ []
        · rw [if_pos hv] at hrt'
          rcases List.mem_append.mp hrt' with hrt' | hrt'
          · exact hacc rt' hrt'
          · rw [List.mem_singleton] at hrt'
            subst hrt'
            intro trip htrip
            exact hl rt (List.mem_cons_self _ _) trip (List.mem_of_mem_filter htrip)
        · rw [if_neg hv] at hrt'
          exact hacc rt' hrt'

/-- If an origin has no transfer entry, processing it in the
initialization loop marks at most the origin itself. -/
theorem initOriginStep_marked_sub (env : Env) (startTime : Int) (st : RaptorInit)
    (oid : String) (hte : transferEntries env oid = []) :
    ∀ s ∈ (initOriginStep env startTime st oid).marked, s ∈ st.marked ∨ s = oid := by
  intro s hs
  unfold initOriginStep at hs
  rw [hte] at hs
  simp only [List.foldl_nil] at hs
  by_cases hseed : (match OMap.oget st.tauBest oid with | none => true | some v => startTime < v) = true
  · rw [if_pos hseed] at hs
    dsimp only at hs
    exact (mem_sadd _ _ _).mp hs
  · rw [if_neg hseed] at hs
    exact Or.inl hs

/-- When no origin has a transfer entry, every stop marked by the
initialization is one of the origins. -/
theorem raptorInit_marked_sub (env : Env) (originIds : List String) (startTime : Int)
    (hte : ∀ oid ∈ originIds, transferEntries env oid = []) :
    ∀ s ∈ (raptorInit env originIds startTime).marked, s ∈ originIds := by
  unfold raptorInit
  suffices hgen : ∀ (l : List String), (∀ oid ∈ l, oid ∈ originIds) →
      (∀ oid ∈ l, transferEntries env oid = []) →
      ∀ (st : RaptorInit), (∀ s ∈ st.marked, s ∈ originIds) →
      ∀ s ∈ (l.foldl (initOriginStep env startTime) st).marked, s ∈ originIds by
    refine hgen originIds (fun _ h => h) hte ⟨OMap.empty, OMap.empty, [], []⟩ ?_
    intro s hs
    simp at hs
  intro l
  induction l with
  | nil => intro _ _ st hst s hs; exact hst s hs
  | cons oid rest ih =>
    intro hsub hl st hst s hs
    rw [List.foldl_cons] at hs
    refine ih (fun x hx => hsub x (List.mem_cons_of_mem _ hx))
      (fun x hx => hl x (List.mem_cons_of_mem _ hx))
      _ ?_ s hs
    intro s' hs'
    rcases initOriginStep_marked_sub env startTime st oid
        (hl oid (List.mem_cons_self _ _)) s' hs' with hs' | heq
    · exact hst s' hs'
    · rw [heq]
      exact hsub oid (List.mem_cons_self _ _)

/-- A round in which every marked stop has no trips marks nothing new,
collects nothing, and leaves the labels unchanged. -/
theorem raptorRound_no_trips (env : Env) (dests : List String)
    (stt : OMap String (List STEntry)) (dateISO : Option String)
    (originSet : List String) (st : RoundSt)
    (h : ∀ stop ∈ st.marked, stt.oget stop = none) :
    raptorRound env (some dests) stt dateISO originSet st =
      ⟨st.tauBest, st.parent, [], st.results, st.collected⟩ := by
  unfold raptorRound
  have hscan : st.marked.foldl
      (fun s stop => ((stt.oget stop).getD []).foldl
        (fun s e => scanTrip e.trip e.idx e.routeId dateISO s) s)
      ⟨st.tauBest, OMap.empty, st.parent⟩ = ⟨st.tauBest, OMap.empty, st.parent⟩ := by
    refine foldl_id_of_fix _ _ _ ?_
    intro s stop hstop
    rw [h stop hstop]
    rfl
  dsimp only
  rw [hscan]
  dsimp only [OMap.empty]
  simp only [List.foldl_nil]
  have hres : dests.foldl
      (fun res did =>
        match OMap.oget ([] : OMap String Int) did with
        | some v =>
          if ltOpt v (OMap.oget st.tauBest did) then
            match reconstructJourney env st.parent originSet did with
            | some j =>
              if res.any (fun r => tripKey r = tripKey j) then res else res ++ [j]
            | none => res
          else res
        | none => res)
      st.results = st.results := by
    refine foldl_id_of_fix _ _ _ ?_
    intro res did _
    rfl
  rw [hres]

/-- If every marked stop has no trips, the round loop breaks after the
first round with the results unchanged. -/
theorem roundsGo_stop (env : Env) (dests : List String)
    (stt : OMap String (List STEntry)) (dateISO : Option String)
    (originSet : List String) (n : Nat) (st : RoundSt)
    (h : ∀ stop ∈ st.marked, stt.oget stop = none) :
    (roundsGo env (some dests) stt dateISO originSet (n + 1) st).results = st.results := by
  rw [roundsGo]
  rw [raptorRound_no_trips env dests stt dateISO originSet st h]
  rw [if_pos rfl]

/-- `raptorCore` finds no journey when every origin has no transfer
entry and no trips: nothing beyond the seeded origins is ever reached. -/
theorem raptorCore_no_trips (env : Env) (origins dests : List String) (t : Int)
    (stt : OMap String (List STEntry)) (dateISO : Option String)
    (h1 : ∀ oid ∈ origins, transferEntries env oid = [])
    (h2 : ∀ oid ∈ origins, stt.oget oid = none) :
    raptorCore env origins (some dests) t stt dateISO = [] := by
  unfold raptorCore
  rw [show MAX_ROUNDS = 4 + 1 from rfl]
  show (roundsGo env (Option.map sdedup (some dests)) stt dateISO
    (raptorInit env origins t).originSet (4 + 1)
    ⟨(raptorInit env origins t).tauBest, (raptorInit env origins t).parent,
      (raptorInit env origins t).marked, [], []⟩).results = []
  exact roundsGo_stop env (sdedup dests) stt dateISO
    (raptorInit env origins t).originSet 4
    ⟨(raptorInit env origins t).tauBest, (raptorInit env origins t).parent,
      (raptorInit env origins t).marked, [], []⟩
    (fun stop hstop => h2 stop (raptorInit_marked_sub env origins t h1 stop hstop))

/-- If every batch of the enumeration loop is empty, the loop never
collects a journey. -/
theorem searchLoop_all_empty (env : Env) (originIds destIds : List String)
    (startTime : Int) (stt : OMap String (List STEntry)) (limit : Nat)
    (dateISO : Option String) (allowedTypes : Option (List String)) (maxT : Int)
    (hbatch : ∀ t : Int, raptorCore env originIds (some destIds) t stt dateISO = []) :
    ∀ (fuel : Nat) (t : Int) (noNew : Nat) (seen : List String),
    (searchLoop env originIds destIds startTime stt limit dateISO allowedTypes maxT
      fuel t noNew [] seen).1 = [] := by
  intro fuel
  induction fuel with
  | zero => intro t noNew seen; rfl
  | succ fuel ih =>
    intro t noNew seen
    rw [searchLoop]
    by_cases hg : ([] : List Journey).length < limit ∧ t ≤ maxT
    · rw [if_pos hg]
      dsimp only
      rw [hbatch t]
      have hflt : filterNewJourneys startTime allowedTypes [] [] seen = ([], seen, -1) := rfl
      rw [hflt]
      dsimp only
      rw [if_neg (by decide : ¬ ((-1 : Int) ≥ 0))]
      rw [if_neg (by simp : ¬ (noNew + 1 ≥ 4 ∧ 0 < ([] : List Journey).length))]
      exact ih (t + 1800) (noNew + 1) seen
    · rw [if_neg hg]

/-- `searchJourneys` returns no journey when every origin has no
transfer entry and no trips. -/
theorem searchJourneys_no_origin_trips (env : Env) (origins dests : List String)
    (startTime : Int) (stt : OMap String (List STEntry)) (limit : Nat)
    (dateISO : Option String) (allowedTypes : Option (List String))
    (h1 : ∀ oid ∈ origins, transferEntries env oid = [])
    (h2 : ∀ oid ∈ origins, stt.oget oid = none) :
    searchJourneys env origins dests startTime stt limit dateISO allowedTypes = [] := by
  unfold searchJourneys
  dsimp only
  rw [searchLoop_all_empty env origins dests startTime stt limit dateISO allowedTypes
    (startTime + 14 * 3600)
    (fun t => raptorCore_no_trips env origins dests t stt dateISO h1 h2)
    (limit + 40) startTime 0 []]
  simp [jsSort, dedupeByArrCity, OMap.ovalues, OMap.empty]

/-- The three components of `unknownStop` as propositions. -/
theorem unknownStop_spec (env : Env) (id : String) (h : unknownStop env id = true) :
    transferEntries env id = [] ∧
    (∀ rt ∈ env.routeTrips, ∀ trip ∈ rt.2, ∀ st ∈ trip.stop_times, st.stop_id ≠ id) ∧
    matchesUic env id = false := by
  unfold unknownStop at h
  rw [Bool.and_eq_true, Bool.and_eq_true] at h
  obtain ⟨⟨hteB, htrB⟩, huicB⟩ := h
  refine ⟨?_, ?_, ?_⟩
  · cases hh : transferEntries env id with
    | nil => rfl
    | cons a l => rw [hh] at hteB; exact absurd hteB (by simp [List.isEmpty])
  · intro rt hrt trip htrip st hst
    have hx1 := List.all_eq_true.mp htrB rt hrt
    have hx2 := List.all_eq_true.mp hx1 trip htrip
    have hx3 := List.all_eq_true.mp hx2 st hst
    exact of_decide_eq_true hx3
  · cases hh : matchesUic env id with
    | false => rfl
    | true => rw [hh] at huicB; exact absurd huicB (by decide)

/-- C7: a search request whose origin and destination parameters are
non-empty but name only stop ids unknown to the timetable succeeds with
an empty journey list (HTTP 200) instead of failing: unknown ids pass
through `resolveStopIds` unexpanded and the round-based core finds no
journey from them. -/
theorem apiSearch_unknown_ids_ok (env : Env) (q : SearchQuery)
    (hfrom : (jsSplit q.qfrom ',').filter (· ≠ "") ≠ [])
    (hto : (jsSplit q.qto ',').filter (· ≠ "") ≠ [])
    (hunk : ∀ id ∈ (jsSplit q.qfrom ',').filter (· ≠ "") ++
        (jsSplit q.qto ',').filter (· ≠ ""), unknownStop env id = true) :
    apiSearch env q = (200, []) := by
  have hfromUnk : ∀ id ∈ (jsSplit q.qfrom ',').filter (· ≠ ""), unknownStop env id = true :=
    fun id hid => hunk id (List.mem_append_left _ hid)
  have hres : resolveStopIds env (sdedup ((jsSplit q.qfrom ',').filter (· ≠ ""))) "origin"
      = sdedup (sdedup ((jsSplit q.qfrom ',').filter (· ≠ ""))) :=
    resolveStopIds_unknown env _ _ (fun id hid => hfromUnk id ((mem_sdedup _ _).mp hid))
  have hmem : ∀ oid ∈ sdedup (sdedup ((jsSplit q.qfrom ',').filter (· ≠ ""))),
      unknownStop env oid = true :=
    fun oid hoid => hfromUnk oid ((mem_sdedup _ _).mp ((mem_sdedup _ _).mp hoid))
  have h1 : ∀ oid ∈ sdedup (sdedup ((jsSplit q.qfrom ',').filter (· ≠ ""))),
      transferEntries env oid = [] :=
    fun oid hoid => (unknownStop_spec env oid (hmem oid hoid)).1
  have h2 : ∀ oid ∈ sdedup (sdedup ((jsSplit q.qfrom ',').filter (· ≠ ""))),
      (getFilteredData env q.date).oget oid = none :=
    fun oid hoid =>
      getFilteredData_oget_none env q.date oid (unknownStop_spec env oid (hmem oid hoid)).2.1
  unfold apiSearch
  dsimp only
  rw [if_neg (not_or.mpr ⟨hfrom, hto⟩)]
  rw [hres]
  rw [searchJourneys_no_origin_trips env _ _ _ _ _ _ _ h1 h2]

/-- Witness for C7 at a concrete request: ids `Z:q`/`Z:r` are unknown to
`cx7Env`, and the handler answers 200 with an empty list. -/
theorem apiSearch_unknown_ids_ok_witness :
    apiSearch cx7Env ⟨"Z:q", "Z:r", none, none, 0, 0, none, none⟩ = (200, []) :=
  apiSearch_unknown_ids_ok cx7Env ⟨"Z:q", "Z:r", none, none, 0, 0, none, none⟩
    (by decide) (by decide) (by decide)
